import Mathlib

/-!
Verification development for the micrograd-rs scalar autodiff engine
(src/engine.rs, src/optimiser.rs).

Modelling conventions:
* Rust `f64` scalars are modelled as `ℚ`.  The opaque real functions
  `f64::pow` (used by `Operation::Pow`) and `f64::sqrt` / `f64::powf`
  (used by the Adam optimiser) are passed as explicit function
  parameters `powQ` / `sqrtQ`, since they have no rational counterpart.
* Rust `HashMap<NodeId, _>` values are modelled as association lists
  with first-match lookup; insertion conses a fresh entry, which is
  observationally the same as the overwriting insert of a hash map.
* Functions that can panic in Rust (`unwrap`, `todo!`) return
  `Except EvalErr _`; each panic site gets its own error constructor.
  The recursive evaluation and back-propagation walks take an explicit
  fuel argument; exhausting fuel yields the distinguished error
  `EvalErr.fuel`, which no panic site uses.
-/

namespace Micrograd

/-- Association-list lookup with first-match semantics, modelling
`HashMap::get` for the cons-as-overwrite insertion discipline used below. -/
def alookup {α : Type} (k : ℕ) : List (ℕ × α) → Option α
  | [] => none
  | p :: ps => if p.1 = k then some p.2 else alookup k ps

@[simp] theorem alookup_nil {α : Type} (k : ℕ) : alookup k ([] : List (ℕ × α)) = none := rfl

@[simp] theorem alookup_cons {α : Type} (k : ℕ) (p : ℕ × α) (ps : List (ℕ × α)) :
    alookup k (p :: ps) = if p.1 = k then some p.2 else alookup k ps := rfl

theorem alookup_mem {α : Type} {k : ℕ} {v : α} :
    ∀ {l : List (ℕ × α)}, alookup k l = some v → (k, v) ∈ l := by
  intro l
  induction l with
  | nil => intro h; simp [alookup] at h
  | cons p ps ih =>
    obtain ⟨a, b⟩ := p
    intro h
    rw [alookup_cons] at h
    by_cases hk : a = k
    · subst hk
      simp at h
      subst h
      simp
    · simp [hk] at h
      exact List.mem_cons_of_mem _ (ih h)

/-- The six binary operations of the engine (`enum Operation`). -/
inductive Op where
  | mul
  | add
  | sub
  | div
  | pow
  | relu
deriving DecidableEq, Repr

/-- A node reference (`enum NodeRef`): either an id that must be resolved in
the node map, or an id of an externally supplied input. -/
inductive NodeRef where
  | opNode (id : ℕ)
  | inputNode (id : ℕ)
deriving DecidableEq, Repr

/-- `impl Into<NodeId> for NodeRef`. -/
def NodeRef.toId : NodeRef → ℕ
  | .opNode i => i
  | .inputNode i => i

/-- `NodeRef::as_op_node_id`. -/
def NodeRef.asOpNodeId : NodeRef → Option ℕ
  | .opNode i => some i
  | .inputNode _ => none

/-- `struct GraphBuilderNode`: a binary operation over two node references. -/
structure GraphBuilderNode where
  operation : Op
  left_id : NodeRef
  right_id : NodeRef
deriving DecidableEq, Repr

/-- `enum Node`: an operation node or an immediate (constant) node.  The
immediate stores its own id alongside its construction-time value, exactly
as `struct ImmediateNode` does. -/
inductive Node where
  | operation (n : GraphBuilderNode)
  | immediate (id : ℕ) (original_value : ℚ)
deriving DecidableEq, Repr

/-- `struct GraphBuilder` without the shared id-generator handle (the
counter is threaded explicitly through the builder functions below). -/
structure GraphBuilder where
  root : NodeRef
  nodes : List (ℕ × Node)
  inputs : List (ℕ × ℚ)
deriving DecidableEq, Repr

/-- Per-node runtime state (`struct Data`). -/
structure Data where
  value : ℚ
  gradient : ℚ
deriving DecidableEq, Repr

/-- `Data::new`. -/
def Data.new (v : ℚ) : Data := ⟨v, 0⟩

/-- `struct RunnableGraph`. -/
structure RunnableGraph where
  root : NodeRef
  nodes : List (ℕ × Node)
  inputs : List (ℕ × ℚ)
  data : List (ℕ × Data)
deriving DecidableEq, Repr

/-! ## Graph builder operations

`IdGenerator::get_id` increments the counter and returns it, so ids are
issued strictly increasing starting from 1.  Each builder function takes
the current counter value and returns the new fragment together with the
new counter value. -/

/-- `GraphBuilder::combine`: unions the two node maps (right entries
override left ones, as `HashMap::extend` does), allocates one fresh id for
the new operation node, and unions the input maps. -/
def combine (op : Op) (l r : GraphBuilder) (c : ℕ) : GraphBuilder × ℕ :=
  let id := c + 1
  ({ root := .opNode id,
     nodes := (id, .operation ⟨op, l.root, r.root⟩) :: (r.nodes ++ l.nodes),
     inputs := r.inputs ++ l.inputs }, id)

/-- `GraphBuilder::with_immediate`: allocates an immediate node holding the
scalar, then an operation node with the fragment's root on the left and the
immediate on the right. -/
def with_immediate (op : Op) (l : GraphBuilder) (right_val : ℚ) (c : ℕ) : GraphBuilder × ℕ :=
  let immId := c + 1
  let rootId := c + 2
  ({ root := .opNode rootId,
     nodes := (rootId, .operation ⟨op, l.root, .opNode immId⟩) ::
              (immId, .immediate immId right_val) :: l.nodes,
     inputs := l.inputs }, rootId)

/-- `GraphBuilder::with_immediate2`: the symmetric variant with the
immediate on the left. -/
def with_immediate2 (op : Op) (left_val : ℚ) (r : GraphBuilder) (c : ℕ) : GraphBuilder × ℕ :=
  let immId := c + 1
  let rootId := c + 2
  ({ root := .opNode rootId,
     nodes := (rootId, .operation ⟨op, .opNode immId, r.root⟩) ::
              (immId, .immediate immId left_val) :: r.nodes,
     inputs := r.inputs }, rootId)

/-- `GraphBuilder::new`: the sentinel root id 0 is never allocated by the
id generator. -/
def GraphBuilder.new : GraphBuilder :=
  { root := .opNode 0, nodes := [], inputs := [] }

/-- `GraphBuilder::new_of_immediate`. -/
def new_of_immediate (v : ℚ) (c : ℕ) : GraphBuilder × ℕ :=
  let id := c + 1
  ({ root := .opNode id, nodes := [(id, .immediate id v)], inputs := [] }, id)

/-- `GraphBuilder::create_immediate`: like `new_of_immediate`, it starts a
fresh fragment containing only the new immediate node (the receiver is used
only for its id-generator handle). -/
def create_immediate (_b : GraphBuilder) (v : ℚ) (c : ℕ) : GraphBuilder × ℕ :=
  let id := c + 1
  ({ root := .opNode id, nodes := [(id, .immediate id v)], inputs := [] }, id)

/-- `GraphBuilder::create_input`: returns the new input's id together with
a fragment rooted at the input reference; the input map gains the id with
the default value 0. -/
def create_input (b : GraphBuilder) (c : ℕ) : (ℕ × GraphBuilder) × ℕ :=
  let id := c + 1
  ((id, { root := .inputNode id, nodes := b.nodes, inputs := (id, 0) :: b.inputs }), id)

/-- `GraphBuilder::relu`: sugar for `with_immediate Relu self 0`. -/
def GraphBuilder.relu (b : GraphBuilder) (c : ℕ) : GraphBuilder × ℕ :=
  with_immediate .relu b 0 c

/-- `GraphBuilder::make`: freeze the fragment; the data map starts empty. -/
def GraphBuilder.make (b : GraphBuilder) : RunnableGraph :=
  { root := b.root, nodes := b.nodes, inputs := b.inputs, data := [] }

/-! ## Forward evaluation -/

/-- Error type: one constructor per panic site of the Rust code, plus the
fuel marker for the explicit recursion bound. -/
inductive EvalErr where
  | fuel
  | missingInput (id : ℕ)
  | missingNode (id : ℕ)
  | missingData (id : ℕ)
  | unimplemented (op : Op)
  | rootNotOperation
deriving DecidableEq, Repr

/-- The per-operation value table of `RunnableGraph::get_value_for_node`:
Mul is l*r, Add is l+r, Sub is l-r, Div is l/r, Pow applies the opaque
float power function, Relu is 0 for negative l and l otherwise. -/
def Op.apply (powQ : ℚ → ℚ → ℚ) : Op → ℚ → ℚ → ℚ
  | .mul, l, r => l * r
  | .add, l, r => l + r
  | .sub, l, r => l - r
  | .div, l, r => l / r
  | .pow, l, r => powQ l r
  | .relu, l, _ => if l < 0 then 0 else l

/-- `RunnableGraph::update_data_value`: insert a fresh `Data` with zero
gradient when the id has no entry, otherwise overwrite the value and keep
the gradient. -/
def update_data_value (g : RunnableGraph) (id : ℕ) (v : ℚ) : RunnableGraph :=
  match alookup id g.data with
  | none => { g with data := (id, Data.new v) :: g.data }
  | some d => { g with data := (id, { d with value := v }) :: g.data }

/-- `RunnableGraph::get_node_value` with the body of
`RunnableGraph::get_value_for_node` inlined at the operation-node branch.
An input reference reads the input map (panicking when absent); an
operation-node reference resolves the node map (panicking when absent) and
either recomputes the operation from both operands — writing the result
into the data map — or, for an immediate, reads the current data value
falling back to the construction-time value and writes it back (once under
the immediate's stored id, once under the resolved id, exactly as the two
`update_data_value` calls of the source do). -/
def get_node_value (powQ : ℚ → ℚ → ℚ) :
    ℕ → RunnableGraph → NodeRef → Except EvalErr (ℚ × RunnableGraph)
  | 0, _, _ => .error .fuel
  | _ + 1, g, .inputNode id =>
    match alookup id g.inputs with
    | none => .error (.missingInput id)
    | some v => .ok (v, g)
  | fuel + 1, g, .opNode id =>
    match alookup id g.nodes with
    | none => .error (.missingNode id)
    | some (.operation n) =>
      match get_node_value powQ fuel g n.left_id with
      | .error e => .error e
      | .ok (lv, g1) =>
        match get_node_value powQ fuel g1 n.right_id with
        | .error e => .error e
        | .ok (rv, g2) =>
          let v := Op.apply powQ n.operation lv rv
          .ok (v, update_data_value g2 id v)
    | some (.immediate j ov) =>
      .ok (((alookup j g.data).map Data.value).getD ov,
           update_data_value (update_data_value g j (((alookup j g.data).map Data.value).getD ov))
             id (((alookup j g.data).map Data.value).getD ov))

/-- `RunnableGraph::get_value_for_node` as a standalone function (the same
code that `get_node_value` inlines, without the caller's final
`update_data_value`). -/
def get_value_for_node (powQ : ℚ → ℚ → ℚ) (fuel : ℕ) (g : RunnableGraph) :
    Node → Except EvalErr (ℚ × RunnableGraph)
  | .operation n =>
    match get_node_value powQ fuel g n.left_id with
    | .error e => .error e
    | .ok (lv, g1) =>
      match get_node_value powQ fuel g1 n.right_id with
      | .error e => .error e
      | .ok (rv, g2) => .ok (Op.apply powQ n.operation lv rv, g2)
  | .immediate j ov =>
    let v := ((alookup j g.data).map Data.value).getD ov
    .ok (v, update_data_value g j v)

/-- The two presentations agree: resolving an operation-node reference runs
`get_value_for_node` on the resolved node and then records the value under
the resolved id. -/
theorem get_node_value_op_eq (powQ : ℚ → ℚ → ℚ) (fuel : ℕ) (g : RunnableGraph) (id : ℕ) :
    get_node_value powQ (fuel + 1) g (.opNode id) =
      match alookup id g.nodes with
      | none => .error (.missingNode id)
      | some n =>
        match get_value_for_node powQ fuel g n with
        | .error e => .error e
        | .ok (v, g1) => .ok (v, update_data_value g1 id v) := by
  cases hn : alookup id g.nodes with
  | none => simp [get_node_value, hn]
  | some n =>
    cases n with
    | operation nd =>
      simp only [get_node_value, get_value_for_node, hn]
      cases get_node_value powQ fuel g nd.left_id with
      | error e => rfl
      | ok p =>
        obtain ⟨lv, g1⟩ := p
        dsimp only
        cases get_node_value powQ fuel g1 nd.right_id with
        | error e => rfl
        | ok q =>
          obtain ⟨rv, g2⟩ := q
          rfl
    | immediate j ov => simp [get_node_value, get_value_for_node, hn]

/-- `RunnableGraph::forward`. -/
def forward (powQ : ℚ → ℚ → ℚ) (fuel : ℕ) (g : RunnableGraph) :
    Except EvalErr (ℚ × RunnableGraph) :=
  get_node_value powQ fuel g g.root

/-- `RunnableGraph::set_input`: panics when the id has no input entry. -/
def set_input (g : RunnableGraph) (inp : ℕ) (val : ℚ) : Option RunnableGraph :=
  match alookup inp g.inputs with
  | none => none
  | some _ => some { g with inputs := (inp, val) :: g.inputs }

/-! ## Backward pass -/

/-- `RunnableGraph::value_for_id`: the stored value of a reference; an input
reference reads the input map, an op-node reference reads the data map.
Both unwraps panic when the entry is absent. -/
def value_for_id (g : RunnableGraph) : NodeRef → Except EvalErr ℚ
  | .inputNode i =>
    match alookup i g.inputs with
    | none => .error (.missingInput i)
    | some v => .ok v
  | .opNode i =>
    match alookup i g.data with
    | none => .error (.missingData i)
    | some d => .ok d.value

/-- `RunnableGraph::grad_for_id`. -/
def grad_for_id (g : RunnableGraph) (i : ℕ) : Except EvalErr ℚ :=
  match alookup i g.data with
  | none => .error (.missingData i)
  | some d => .ok d.gradient

/-- Overwrite the gradient of an existing data entry. -/
def set_gradient (g : RunnableGraph) (i : ℕ) (d : Data) (grad : ℚ) : RunnableGraph :=
  { g with data := (i, { d with gradient := grad }) :: g.data }

/-- `RunnableGraph::update`: the local gradient-distribution rule.  An input
reference returns unchanged (the early `as_op_node_id` check); otherwise the
data entry is fetched (panicking when absent) and the gradient is increased
by the contribution of the operation: Add adds the root gradient, Mul adds
the other operand's value times the root gradient, Relu adds the root
gradient gated on the root value being positive, and Sub/Div/Pow hit the
`todo!` branch. -/
def RunnableGraph.update (g : RunnableGraph) (id : NodeRef) (operation : Op)
    (root_value root_grad other_value : ℚ) : Except EvalErr RunnableGraph :=
  match id with
  | .inputNode _ => .ok g
  | .opNode i =>
    match alookup i g.data with
    | none => .error (.missingData i)
    | some d =>
      match operation with
      | .add => .ok (set_gradient g i d (d.gradient + root_grad))
      | .mul => .ok (set_gradient g i d (d.gradient + other_value * root_grad))
      | .relu =>
          .ok (set_gradient g i d
                (d.gradient + (if root_value > 0 then (1 : ℚ) else 0) * root_grad))
      | op => .error (.unimplemented op)

/-- `RunnableGraph::_backwards`: the recursive reverse walk.  It first reads
the reference's stored value (panicking when absent), returns for input
references, fetches the node (panicking when absent), does nothing for
immediates, and for an operation node reads the right operand's value,
updates the left operand, recurses left, reads the left operand's value,
updates the right operand, and recurses right. -/
def backwardsFrom :
    ℕ → RunnableGraph → NodeRef → Except EvalErr RunnableGraph
  | 0, _, _ => .error .fuel
  | fuel + 1, g, id =>
    match value_for_id g id with
    | .error e => .error e
    | .ok root_value =>
      match id with
      | .inputNode _ => .ok g
      | .opNode i =>
        match grad_for_id g i with
        | .error e => .error e
        | .ok root_grad =>
          match alookup i g.nodes with
          | none => .error (.missingNode i)
          | some (.immediate _ _) => .ok g
          | some (.operation n) =>
            match value_for_id g n.right_id with
            | .error e => .error e
            | .ok right_value =>
              match g.update n.left_id n.operation root_value root_grad right_value with
              | .error e => .error e
              | .ok g1 =>
                match backwardsFrom fuel g1 n.left_id with
                | .error e => .error e
                | .ok g2 =>
                  match value_for_id g2 n.left_id with
                  | .error e => .error e
                  | .ok left_value =>
                    match g2.update n.right_id n.operation root_value root_grad left_value with
                    | .error e => .error e
                    | .ok g3 => backwardsFrom fuel g3 n.right_id

/-- `RunnableGraph::backwards`: reads the root's stored value, resolves the
root in the node map (panicking when absent or when the node is an
immediate), seeds the root via `update` with the root's own operation and
other-value 0, then starts the recursive walk at the root. -/
def backwards (fuel : ℕ) (g : RunnableGraph) (out_grad : ℚ) :
    Except EvalErr RunnableGraph :=
  match value_for_id g g.root with
  | .error e => .error e
  | .ok root_value =>
    match alookup g.root.toId g.nodes with
    | none => .error (.missingNode g.root.toId)
    | some (.immediate _ _) => .error .rootNotOperation
    | some (.operation n) =>
      match g.update g.root n.operation root_value out_grad 0 with
      | .error e => .error e
      | .ok g1 => backwardsFrom fuel g1 g.root

/-- `RunnableGraph::zero_grads`: reset every data entry's gradient to 0. -/
def zero_grads (g : RunnableGraph) : RunnableGraph :=
  { g with data := g.data.map (fun p => (p.1, { p.2 with gradient := 0 })) }

/-! ## Builder programs

To talk about "any sequence of builder operations sharing one id
generator", a program is a list of steps over a store of fragments; each
step may reuse any previously built fragment (by its position in the
store), which models cloning and sharing of fragments in the Rust API. -/

/-- One builder call.  Fragment arguments are positions in the store of
already-built fragments; a step whose position is out of range leaves the
state unchanged. -/
inductive BuildStep where
  | newBuilder
  | newOfImmediate (v : ℚ)
  | createImmediate (src : ℕ) (v : ℚ)
  | createInput (src : ℕ)
  | combineStep (op : Op) (l r : ℕ)
  | withImmediateStep (op : Op) (l : ℕ) (v : ℚ)
  | withImmediate2Step (op : Op) (v : ℚ) (r : ℕ)
  | reluStep (src : ℕ)
deriving DecidableEq, Repr

/-- The shared id-generator counter together with every fragment built so
far. -/
structure BuildState where
  cnt : ℕ
  frags : List GraphBuilder
deriving DecidableEq, Repr

/-- Interpret one builder call against the shared counter. -/
def runStep (s : BuildState) : BuildStep → BuildState
  | .newBuilder => ⟨s.cnt, s.frags ++ [GraphBuilder.new]⟩
  | .newOfImmediate v =>
    let (b, c) := new_of_immediate v s.cnt
    ⟨c, s.frags ++ [b]⟩
  | .createImmediate i v =>
    match s.frags.get? i with
    | none => s
    | some b =>
      let (b1, c) := create_immediate b v s.cnt
      ⟨c, s.frags ++ [b1]⟩
  | .createInput i =>
    match s.frags.get? i with
    | none => s
    | some b =>
      let ((_, b1), c) := create_input b s.cnt
      ⟨c, s.frags ++ [b1]⟩
  | .combineStep op i j =>
    match s.frags.get? i, s.frags.get? j with
    | some l, some r =>
      let (b, c) := combine op l r s.cnt
      ⟨c, s.frags ++ [b]⟩
    | _, _ => s
  | .withImmediateStep op i v =>
    match s.frags.get? i with
    | none => s
    | some l =>
      let (b, c) := with_immediate op l v s.cnt
      ⟨c, s.frags ++ [b]⟩
  | .withImmediate2Step op v j =>
    match s.frags.get? j with
    | none => s
    | some r =>
      let (b, c) := with_immediate2 op v r s.cnt
      ⟨c, s.frags ++ [b]⟩
  | .reluStep i =>
    match s.frags.get? i with
    | none => s
    | some b =>
      let (b1, c) := b.relu s.cnt
      ⟨c, s.frags ++ [b1]⟩

/-- Run a whole builder program from a fresh `IdGenerator` (counter 0) and
an empty store. -/
def runProg (steps : List BuildStep) : BuildState :=
  steps.foldl runStep ⟨0, []⟩

/-- The id-ordering property of a single fragment: every operation node's
two operand ids are strictly below the node's own id. -/
def OperandsBelow (b : GraphBuilder) : Prop :=
  ∀ p ∈ b.nodes, ∀ n, p.2 = Node.operation n →
    n.left_id.toId < p.1 ∧ n.right_id.toId < p.1

/-- Well-formedness of a fragment with respect to the shared counter:
its root id and all its node keys have been issued already (or are the
sentinel 0), and the id-ordering property holds. -/
def WFB (c : ℕ) (b : GraphBuilder) : Prop :=
  b.root.toId ≤ c ∧ (∀ p ∈ b.nodes, p.1 ≤ c) ∧ OperandsBelow b

theorem WFB.mono {c c' : ℕ} {b : GraphBuilder} (h : WFB c b) (hc : c ≤ c') : WFB c' b :=
  ⟨le_trans h.1 hc, fun p hp => le_trans (h.2.1 p hp) hc, h.2.2⟩

/-- The whole-state invariant: every fragment in the store is well formed
for the current counter. -/
def BuildInv (s : BuildState) : Prop :=
  ∀ b ∈ s.frags, WFB s.cnt b

theorem WFB_new (c : ℕ) : WFB c GraphBuilder.new := by
  refine ⟨by simp [GraphBuilder.new, NodeRef.toId], by simp [GraphBuilder.new], ?_⟩
  intro p hp
  simp [GraphBuilder.new] at hp

theorem WFB_new_of_immediate (v : ℚ) (c : ℕ) : WFB (c + 1) (new_of_immediate v c).1 := by
  refine ⟨by simp [new_of_immediate, NodeRef.toId], by simp [new_of_immediate], ?_⟩
  intro p hp n hn
  simp [new_of_immediate] at hp
  subst hp
  simp at hn

theorem WFB_create_immediate (b : GraphBuilder) (v : ℚ) (c : ℕ) :
    WFB (c + 1) (create_immediate b v c).1 := by
  refine ⟨by simp [create_immediate, NodeRef.toId], by simp [create_immediate], ?_⟩
  intro p hp n hn
  simp [create_immediate] at hp
  subst hp
  simp at hn

theorem WFB_create_input {c : ℕ} {b : GraphBuilder} (h : WFB c b) :
    WFB (c + 1) (create_input b c).1.2 := by
  refine ⟨by simp [create_input, NodeRef.toId], ?_, ?_⟩
  · intro p hp
    simp only [create_input] at hp
    exact le_trans (h.2.1 p hp) (Nat.le_succ _)
  · intro p hp n hn
    simp only [create_input] at hp
    exact h.2.2 p hp n hn

theorem WFB_combine {c : ℕ} {l r : GraphBuilder} (op : Op)
    (hl : WFB c l) (hr : WFB c r) : WFB (c + 1) (combine op l r c).1 := by
  refine ⟨by simp [combine, NodeRef.toId], ?_, ?_⟩
  · intro p hp
    simp only [combine, List.mem_cons, List.mem_append] at hp
    rcases hp with hp | hp | hp
    · subst hp
      simp
    · exact le_trans (hr.2.1 p hp) (Nat.le_succ _)
    · exact le_trans (hl.2.1 p hp) (Nat.le_succ _)
  · intro p hp n hn
    simp only [combine, List.mem_cons, List.mem_append] at hp
    rcases hp with hp | hp | hp
    · subst hp
      simp only at hn
      cases hn
      exact ⟨Nat.lt_succ_of_le hl.1, Nat.lt_succ_of_le hr.1⟩
    · exact hr.2.2 p hp n hn
    · exact hl.2.2 p hp n hn

theorem WFB_with_immediate {c : ℕ} {l : GraphBuilder} (op : Op) (v : ℚ)
    (hl : WFB c l) : WFB (c + 2) (with_immediate op l v c).1 := by
  refine ⟨by simp [with_immediate, NodeRef.toId], ?_, ?_⟩
  · intro p hp
    simp only [with_immediate, List.mem_cons] at hp
    rcases hp with hp | hp | hp
    · subst hp
      simp
    · subst hp
      simp
    · exact le_trans (hl.2.1 p hp) (by omega)
  · intro p hp n hn
    simp only [with_immediate, List.mem_cons] at hp
    rcases hp with hp | hp | hp
    · subst hp
      simp only at hn
      cases hn
      constructor
      · exact lt_of_le_of_lt hl.1 (by omega)
      · simp [NodeRef.toId]
    · subst hp
      simp only at hn
      cases hn
    · exact hl.2.2 p hp n hn

theorem WFB_with_immediate2 {c : ℕ} {r : GraphBuilder} (op : Op) (v : ℚ)
    (hr : WFB c r) : WFB (c + 2) (with_immediate2 op v r c).1 := by
  refine ⟨by simp [with_immediate2, NodeRef.toId], ?_, ?_⟩
  · intro p hp
    simp only [with_immediate2, List.mem_cons] at hp
    rcases hp with hp | hp | hp
    · subst hp
      simp
    · subst hp
      simp
    · exact le_trans (hr.2.1 p hp) (by omega)
  · intro p hp n hn
    simp only [with_immediate2, List.mem_cons] at hp
    rcases hp with hp | hp | hp
    · subst hp
      simp only at hn
      cases hn
      constructor
      · simp [NodeRef.toId]
      · exact lt_of_le_of_lt hr.1 (by omega)
    · subst hp
      simp only at hn
      cases hn
    · exact hr.2.2 p hp n hn

theorem buildInv_runStep {s : BuildState} (h : BuildInv s) (st : BuildStep) :
    BuildInv (runStep s st) := by
  have hmem : ∀ {i : ℕ} {b : GraphBuilder}, s.frags.get? i = some b → WFB s.cnt b := by
    intro i b hb
    exact h b (List.get?_mem hb)
  have hApp : ∀ (c' : ℕ) (b' : GraphBuilder), s.cnt ≤ c' → WFB c' b' →
      BuildInv ⟨c', s.frags ++ [b']⟩ := by
    intro c' b' hc hw b hb
    rcases List.mem_append.1 hb with hb | hb
    · exact (h b hb).mono hc
    · simp at hb
      subst hb
      exact hw
  cases st with
  | newBuilder => exact hApp s.cnt _ le_rfl (WFB_new s.cnt)
  | newOfImmediate v => exact hApp (s.cnt + 1) _ (Nat.le_succ _) (WFB_new_of_immediate v s.cnt)
  | createImmediate i v =>
    cases hgi : s.frags.get? i with
    | none =>
      have hs : runStep s (BuildStep.createImmediate i v) = s := by simp only [runStep, hgi]
      rw [hs]
      exact h
    | some b0 =>
      simp only [runStep, hgi]
      exact hApp (s.cnt + 1) _ (Nat.le_succ _) (WFB_create_immediate b0 v s.cnt)
  | createInput i =>
    cases hgi : s.frags.get? i with
    | none =>
      have hs : runStep s (BuildStep.createInput i) = s := by simp only [runStep, hgi]
      rw [hs]
      exact h
    | some b0 =>
      simp only [runStep, hgi]
      exact hApp (s.cnt + 1) _ (Nat.le_succ _) (WFB_create_input (hmem hgi))
  | combineStep op i j =>
    cases hgi : s.frags.get? i with
    | none =>
      have hs : runStep s (BuildStep.combineStep op i j) = s := by
        simp only [runStep, hgi]
      rw [hs]
      exact h
    | some l =>
      cases hgj : s.frags.get? j with
      | none =>
        have hs : runStep s (BuildStep.combineStep op i j) = s := by
          simp only [runStep, hgi, hgj]
        rw [hs]
        exact h
      | some r =>
        simp only [runStep, hgi, hgj]
        exact hApp (s.cnt + 1) _ (Nat.le_succ _) (WFB_combine op (hmem hgi) (hmem hgj))
  | withImmediateStep op i v =>
    cases hgi : s.frags.get? i with
    | none =>
      have hs : runStep s (BuildStep.withImmediateStep op i v) = s := by
        simp only [runStep, hgi]
      rw [hs]
      exact h
    | some l =>
      simp only [runStep, hgi]
      exact hApp (s.cnt + 2) _ (by omega) (WFB_with_immediate op v (hmem hgi))
  | withImmediate2Step op v j =>
    cases hgj : s.frags.get? j with
    | none =>
      have hs : runStep s (BuildStep.withImmediate2Step op v j) = s := by
        simp only [runStep, hgj]
      rw [hs]
      exact h
    | some r =>
      simp only [runStep, hgj]
      exact hApp (s.cnt + 2) _ (by omega) (WFB_with_immediate2 op v (hmem hgj))
  | reluStep i =>
    cases hgi : s.frags.get? i with
    | none =>
      have hs : runStep s (BuildStep.reluStep i) = s := by simp only [runStep, hgi]
      rw [hs]
      exact h
    | some l =>
      simp only [runStep, hgi, GraphBuilder.relu]
      exact hApp (s.cnt + 2) _ (by omega) (WFB_with_immediate .relu 0 (hmem hgi))

theorem buildInv_foldl (steps : List BuildStep) :
    ∀ s : BuildState, BuildInv s → BuildInv (steps.foldl runStep s) := by
  induction steps with
  | nil => intro s h; exact h
  | cons st rest ih =>
    intro s h
    exact ih _ (buildInv_runStep h st)

/-- Claim C1: for every graph obtained by any sequence of builder
operations (create_input, create_immediate, combine, with_immediate,
relu — plus new, new_of_immediate and with_immediate2), possibly from
fragments sharing one IdGenerator, every operation node's two operand ids
are strictly less than the operation node's own id, because the id
generator issues strictly increasing ids. -/
theorem C1_operand_ids_below_node_id (steps : List BuildStep) :
    ∀ b ∈ (runProg steps).frags, ∀ p ∈ b.nodes, ∀ n, p.2 = Node.operation n →
      n.left_id.toId < p.1 ∧ n.right_id.toId < p.1 := by
  have h0 : BuildInv ⟨0, []⟩ := by
    intro b hb
    simp at hb
  have h := buildInv_foldl steps ⟨0, []⟩ h0
  intro b hb p hp n hn
  exact (h b hb).2.2 p hp n hn

/-- A concrete builder program for the C1 witness: an input x, the
fragment x + 1, and the square of that fragment built by combining the
fragment with itself. -/
def progC1 : List BuildStep :=
  [BuildStep.newBuilder, BuildStep.createInput 0,
   BuildStep.withImmediateStep Op.add 1 1, BuildStep.combineStep Op.mul 2 2]

/-- Witness for C1 at a concrete program: the final fragment's root
operation node (id 4, a Mul of node 3 with itself) has both operand ids
strictly below 4. -/
theorem C1_operand_ids_below_node_id_witness :
    (NodeRef.opNode 3).toId < 4 ∧ (NodeRef.opNode 3).toId < 4 :=
  C1_operand_ids_below_node_id progC1
    ((runProg progC1).frags.getD 3 GraphBuilder.new) (by decide)
    (4, Node.operation ⟨Op.mul, NodeRef.opNode 3, NodeRef.opNode 3⟩) (by decide)
    ⟨Op.mul, NodeRef.opNode 3, NodeRef.opNode 3⟩ rfl

/-! ## Concrete graphs used by several claims -/

/-- Stand-in for the opaque float power function; the concrete graphs below
contain no Pow node, so its value is never used. -/
def pw0 : ℚ → ℚ → ℚ := fun _ _ => 0

/-- The graph of the spec's forward test `(a + b) * 2`: two inputs created
from a fresh builder, combined under Add, then Mul with the immediate 2.
Ids: inputs 1 and 2, Add node 3, immediate 4, Mul node 5. -/
def gAB : RunnableGraph :=
  let A := (create_input GraphBuilder.new 0).1.2
  let B := (create_input GraphBuilder.new 1).1.2
  let C := (combine .add A B 2).1
  ((with_immediate .mul C 2 3).1).make

/-- `gAB` with a = 1 and b = 2 written through `set_input`. -/
def gAB12 : RunnableGraph :=
  ((set_input gAB 1 1).bind (fun g => set_input g 2 2)).getD gAB

/-- The graph of the spec's relu test: one input x, then `relu`.
Ids: input 1, zero immediate 2, Relu node 3. -/
def gRelu : RunnableGraph :=
  let X := (create_input GraphBuilder.new 0).1.2
  ((X.relu 1).1).make

/-- `gRelu` with x = -5. -/
def gReluNeg : RunnableGraph := (set_input gRelu 1 (-5)).getD gRelu

/-- `gRelu` with x = 5. -/
def gReluPos : RunnableGraph := (set_input gRelu 1 5).getD gRelu

/-- Claim C2: forward evaluation computes, for every operation node from
the values l and r of its two operands: Add gives l + r, Sub gives l - r,
Mul gives l * r, Div gives l / r, Pow gives l raised to r (the opaque float
power), and Relu gives max(l, 0) ignoring r; and concretely, the graph
(a + b) * 2 with inputs a = 1, b = 2 evaluates to 6, while relu(x)
evaluates to 0 at x = -5 and to 5 at x = 5. -/
theorem C2_forward_operation_semantics :
    (∀ (powQ : ℚ → ℚ → ℚ) (fuel : ℕ) (g g1 g2 : RunnableGraph) (op : Op)
       (l r : NodeRef) (lv rv : ℚ),
       get_node_value powQ fuel g l = .ok (lv, g1) →
       get_node_value powQ fuel g1 r = .ok (rv, g2) →
       get_value_for_node powQ fuel g (.operation ⟨op, l, r⟩) =
         .ok ((match op with
               | .add => lv + rv
               | .sub => lv - rv
               | .mul => lv * rv
               | .div => lv / rv
               | .pow => powQ lv rv
               | .relu => max lv 0), g2)) ∧
    (forward pw0 10 gAB12).map Prod.fst = .ok 6 ∧
    (forward pw0 10 gReluNeg).map Prod.fst = .ok 0 ∧
    (forward pw0 10 gReluPos).map Prod.fst = .ok 5 := by
  refine ⟨?_, ?_, ?_, ?_⟩
  · intro powQ fuel g g1 g2 op l r lv rv hl hr
    simp only [get_value_for_node, hl, hr]
    cases op with
    | relu =>
      simp only [Op.apply]
      rcases lt_or_le lv 0 with h | h
      · rw [if_pos h, max_eq_right h.le]
      · rw [if_neg (not_lt.2 h), max_eq_left h]
    | add => rfl
    | sub => rfl
    | mul => rfl
    | div => rfl
    | pow => rfl
  · norm_num [Except.map, forward, gAB12, gAB, set_input, get_node_value,
      update_data_value, Op.apply, create_input, combine, with_immediate,
      GraphBuilder.new, GraphBuilder.make, Data.new, NodeRef.toId, alookup, pw0]
  · norm_num [Except.map, forward, gReluNeg, gRelu, set_input, get_node_value,
      update_data_value, Op.apply, create_input, with_immediate, GraphBuilder.new,
      GraphBuilder.relu, GraphBuilder.make, Data.new, NodeRef.toId, alookup, pw0]
  · norm_num [Except.map, forward, gReluPos, gRelu, set_input, get_node_value,
      update_data_value, Op.apply, create_input, with_immediate, GraphBuilder.new,
      GraphBuilder.relu, GraphBuilder.make, Data.new, NodeRef.toId, alookup, pw0]

/-- A tiny state for the C2 witness: two input entries, no nodes. -/
def gW : RunnableGraph :=
  { root := .opNode 0, nodes := [], inputs := [(1, 4), (2, 7)], data := [] }

/-- Witness for C2's general conjunct, applied to a Relu node over the two
inputs of `gW`. -/
theorem C2_forward_operation_semantics_witness :
    get_value_for_node pw0 1 gW (.operation ⟨.relu, .inputNode 1, .inputNode 2⟩) =
      .ok (max 4 0, gW) :=
  C2_forward_operation_semantics.1 pw0 1 gW gW gW .relu
    (.inputNode 1) (.inputNode 2) 4 7 rfl rfl

/-! ## Claim C7: zero_grads -/

theorem alookup_map_snd {α β : Type} (f : α → β) (k : ℕ) :
    ∀ l : List (ℕ × α), alookup k (l.map fun p => (p.1, f p.2)) = (alookup k l).map f := by
  intro l
  induction l with
  | nil => simp
  | cons p ps ih =>
    simp only [List.map_cons, alookup_cons]
    by_cases hk : p.1 = k
    · simp [hk]
    · simp [hk, ih]

/-- Claim C7: after zero_grads every node's stored gradient reads exactly
0, including entries never touched by the most recent backwards call, and
zero_grads leaves every node's stored value (and the rest of the graph)
unchanged. -/
theorem C7_zero_grads_resets_gradients (g : RunnableGraph) (id : ℕ) :
    (alookup id (zero_grads g).data).map Data.gradient =
      (alookup id g.data).map (fun _ => (0 : ℚ)) ∧
    (alookup id (zero_grads g).data).map Data.value =
      (alookup id g.data).map Data.value ∧
    (zero_grads g).root = g.root ∧
    (zero_grads g).nodes = g.nodes ∧
    (zero_grads g).inputs = g.inputs := by
  have h := alookup_map_snd (fun d => ({ d with gradient := 0 } : Data)) id g.data
  refine ⟨?_, ?_, rfl, rfl, rfl⟩
  · show (alookup id (g.data.map fun p => (p.1, { p.2 with gradient := 0 }))).map Data.gradient = _
    rw [h]
    cases alookup id g.data <;> rfl
  · show (alookup id (g.data.map fun p => (p.1, { p.2 with gradient := 0 }))).map Data.value = _
    rw [h]
    cases alookup id g.data <;> rfl

/-! ## Concrete graphs for the backward-pass claims -/

/-- Extract the graph of a successful evaluation, with a fallback for the
error case (never hit in the concrete uses below). -/
def okGraph (e : Except EvalErr (ℚ × RunnableGraph)) (d : RunnableGraph) : RunnableGraph :=
  match e with
  | .ok (_, g) => g
  | .error _ => d

/-- The relu graph at x = 5 after forward evaluation (data populated):
input 1 = 5, zero immediate 2, Relu node 3 with value 5. -/
def gReluPosF : RunnableGraph := okGraph (forward pw0 10 gReluPos) gReluPos

/-- The diamond graph: an immediate a = 3 (id 1), the shared node
s = a * 2 (immediate 2, Mul node 3), two parents p1 = s + 1 (immediate 4,
Add node 5) and p2 = s + 1 (immediate 6, Add node 7), and the root
p1 + p2 (Add node 8).  As a function of a the output is 4a + 2, so the
derivative with respect to a is 4. -/
def gDiamond : RunnableGraph :=
  let A := (new_of_immediate 3 0).1
  let S := (with_immediate .mul A 2 1).1
  let P1 := (with_immediate .add S 1 3).1
  let P2 := (with_immediate .add S 1 5).1
  ((combine .add P1 P2 7).1).make

/-- The diamond graph after forward evaluation. -/
def gDiamondF : RunnableGraph := okGraph (forward pw0 20 gDiamond) gDiamond

/-- Inputs a (id 1) and b (id 2), the Sub node 3 = a - b whose operands are
both input references, immediate 4 = 1, and the root Add node 5. -/
def gSubInterior : RunnableGraph :=
  let A := (create_input GraphBuilder.new 0).1.2
  let B := (create_input GraphBuilder.new 1).1.2
  let S := (combine .sub A B 2).1
  ((with_immediate .add S 1 3).1).make

/-- `gSubInterior` with a = 4, b = 1, forward-evaluated. -/
def gSubInteriorF : RunnableGraph :=
  let g0 := ((set_input gSubInterior 1 4).bind (fun g => set_input g 2 1)).getD gSubInterior
  okGraph (forward pw0 10 g0) g0

/-- Inputs a (id 1) and b (id 2) combined under Sub at the root (node 3). -/
def gSubRoot : RunnableGraph :=
  let A := (create_input GraphBuilder.new 0).1.2
  let B := (create_input GraphBuilder.new 1).1.2
  ((combine .sub A B 2).1).make

/-- `gSubRoot` with a = 4, b = 1, forward-evaluated. -/
def gSubRootF : RunnableGraph :=
  let g0 := ((set_input gSubRoot 1 4).bind (fun g => set_input g 2 1)).getD gSubRoot
  okGraph (forward pw0 10 g0) g0

/-- Input a (id 1), Sub node 3 = a - 1 whose right operand is the
immediate 2 (an op-node reference), immediate 4 = 2, root Add node 5. -/
def gSubImm : RunnableGraph :=
  let A := (create_input GraphBuilder.new 0).1.2
  let S := (with_immediate .sub A 1 1).1
  ((with_immediate .add S 2 3).1).make

/-- `gSubImm` with a = 4, forward-evaluated. -/
def gSubImmF : RunnableGraph :=
  let g0 := (set_input gSubImm 1 4).getD gSubImm
  okGraph (forward pw0 10 g0) g0

/-- A bare input fragment frozen directly: root is the input reference 1,
the node map is empty. -/
def gBareInput : RunnableGraph := ((create_input GraphBuilder.new 0).1.2).make

/-- A lone immediate fragment frozen directly: root is op-node 1 mapping to
an immediate node; the data map is empty. -/
def gLoneImm : RunnableGraph := ((new_of_immediate 5 0).1).make

/-- A freshly constructed builder frozen directly: sentinel root id 0 was
never allocated and the node map is empty. -/
def gFresh : RunnableGraph := GraphBuilder.new.make

/-! ## Claim C4: gradient distribution rules -/

/-- Counterexample to C4 as stated: in relu(x) at x = 5 with seed gradient
1, the right operand of the Relu node — the constant zero immediate
(id 2) — ends the backward pass with stored gradient 1, not 0: `update` is
called for the right operand with the Relu rule and the operand is an
op-node reference, so it receives the same indicator-gated contribution as
the left operand. -/
theorem C4_relu_right_operand_updated_cex :
    (backwards 20 gReluPosF 1).map (fun gb => (alookup 2 gb.data).map Data.gradient) =
      .ok (some 1) ∧ (1 : ℚ) ≠ 0 := by
  constructor
  · norm_num [Except.map, backwards, backwardsFrom, RunnableGraph.update, value_for_id,
      grad_for_id, set_gradient, gReluPosF, okGraph, forward, gReluPos, gRelu, set_input,
      get_node_value, update_data_value, Op.apply, create_input, with_immediate,
      GraphBuilder.new, GraphBuilder.relu, GraphBuilder.make, Data.new, NodeRef.toId,
      NodeRef.asOpNodeId, alookup, pw0]
  · norm_num

/-- Claim C4 (amended): `update` adds into (never overwrites) the stored
gradient of an operand referenced as an op-node id — Add adds the root
gradient, Mul adds the other operand's value times the root gradient, and
Relu adds the root gradient gated on the root value being positive, for the
right operand (the constant zero immediate) just as for the left — while an
operand referenced as an input id is skipped entirely; concretely the zero
immediate of relu(5) ends a backward pass with seed 1 holding gradient 1. -/
theorem C4_update_distribution_rules :
    (∀ (g : RunnableGraph) (j : ℕ) (op : Op) (rv rg ov : ℚ),
       RunnableGraph.update g (.inputNode j) op rv rg ov = .ok g) ∧
    (∀ (g : RunnableGraph) (i : ℕ) (d : Data) (rv rg ov : ℚ),
       alookup i g.data = some d →
       RunnableGraph.update g (.opNode i) .add rv rg ov =
         .ok { g with data := (i, { d with gradient := d.gradient + rg }) :: g.data } ∧
       RunnableGraph.update g (.opNode i) .mul rv rg ov =
         .ok { g with data := (i, { d with gradient := d.gradient + ov * rg }) :: g.data } ∧
       RunnableGraph.update g (.opNode i) .relu rv rg ov =
         .ok { g with data :=
           (i, { d with gradient :=
             d.gradient + (if rv > 0 then (1 : ℚ) else 0) * rg }) :: g.data }) ∧
    (backwards 20 gReluPosF 1).map (fun gb => (alookup 2 gb.data).map Data.gradient) =
      .ok (some 1) := by
  refine ⟨?_, ?_, ?_⟩
  · intro g j op rv rg ov
    rfl
  · intro g i d rv rg ov hd
    refine ⟨?_, ?_, ?_⟩ <;>
      simp only [RunnableGraph.update, hd, set_gradient]
  · norm_num [Except.map, backwards, backwardsFrom, RunnableGraph.update, value_for_id,
      grad_for_id, set_gradient, gReluPosF, okGraph, forward, gReluPos, gRelu, set_input,
      get_node_value, update_data_value, Op.apply, create_input, with_immediate,
      GraphBuilder.new, GraphBuilder.relu, GraphBuilder.make, Data.new, NodeRef.toId,
      NodeRef.asOpNodeId, alookup, pw0]

/-- Witness for C4's amended rules at a concrete state. -/
theorem C4_update_distribution_rules_witness :
    RunnableGraph.update ⟨.opNode 0, [], [], [(6, ⟨2, 5⟩)]⟩ (.opNode 6) .add 0 3 0 =
      .ok ⟨.opNode 0, [], [], [(6, ⟨2, 5 + 3⟩), (6, ⟨2, 5⟩)]⟩ :=
  (C4_update_distribution_rules.2.1 ⟨.opNode 0, [], [], [(6, ⟨2, 5⟩)]⟩ 6 ⟨2, 5⟩ 0 3 0 rfl).1

/-! ## Claim C10: backwards on a non-operation root -/

/-- Claim C10: backwards on a graph whose root does not resolve to an
Operation node fails before distributing any gradient — concretely for a
bare input fragment, a lone immediate fragment, and a freshly constructed
builder with the never-allocated sentinel root id 0 — and in general
backwards can only proceed past its seeding prologue when the root id maps
to an Operation node. -/
theorem C10_backwards_requires_operation_root :
    (∀ (fuel : ℕ) (g : RunnableGraph) (og : ℚ),
       (∀ n, alookup g.root.toId g.nodes ≠ some (Node.operation n)) →
       ∃ e, backwards fuel g og = .error e) ∧
    backwards 20 gBareInput 1 = .error (.missingNode 1) ∧
    backwards 20 gLoneImm 1 = .error (.missingData 1) ∧
    backwards 20 gFresh 1 = .error (.missingData 0) := by
  refine ⟨?_, ?_, ?_, ?_⟩
  · intro fuel g og hroot
    unfold backwards
    cases hv : value_for_id g g.root with
    | error e => exact ⟨e, rfl⟩
    | ok rv =>
      cases hn : alookup g.root.toId g.nodes with
      | none => exact ⟨.missingNode g.root.toId, rfl⟩
      | some nd =>
        cases nd with
        | operation n => exact absurd hn (hroot n)
        | immediate j ov => exact ⟨.rootNotOperation, rfl⟩
  · rfl
  · rfl
  · rfl

/-- Witness for C10's general conjunct at the fresh-builder graph. -/
theorem C10_backwards_requires_operation_root_witness :
    ∃ e, backwards 20 gFresh 1 = .error e :=
  C10_backwards_requires_operation_root.1 20 gFresh 1
    (by
      intro n h
      simp [gFresh, GraphBuilder.make, GraphBuilder.new, NodeRef.toId, alookup] at h)

/-! ## Claim C5: unimplemented backward rules -/

/-- Propositional form: every operation node of the map is Add, Mul or
Relu. -/
def OnlyAMR (nodes : List (ℕ × Node)) : Prop :=
  ∀ p ∈ nodes, ∀ n, p.2 = Node.operation n →
    n.operation = Op.add ∨ n.operation = Op.mul ∨ n.operation = Op.relu

/-- Boolean form of `OnlyAMR`, used in claim statements so that witnesses
can discharge it by evaluation. -/
def nodeAMR : Node → Bool
  | .operation n => n.operation == Op.add || n.operation == Op.mul || n.operation == Op.relu
  | .immediate _ _ => true

def OnlyAMRb (nodes : List (ℕ × Node)) : Bool :=
  nodes.all (fun p => nodeAMR p.2)

theorem OnlyAMR_of_b {nodes : List (ℕ × Node)} (h : OnlyAMRb nodes = true) :
    OnlyAMR nodes := by
  intro p hp n hn
  have hall := List.all_eq_true.1 h p hp
  rw [hn] at hall
  simp only [nodeAMR, Bool.or_eq_true, beq_iff_eq] at hall
  tauto

theorem update_preserves {g g' : RunnableGraph} {id : NodeRef} {op : Op} {rv rg ov : ℚ}
    (h : RunnableGraph.update g id op rv rg ov = .ok g') :
    g'.nodes = g.nodes ∧ g'.inputs = g.inputs ∧ g'.root = g.root := by
  cases id with
  | inputNode j =>
    simp only [RunnableGraph.update] at h
    cases h
    exact ⟨rfl, rfl, rfl⟩
  | opNode i =>
    simp only [RunnableGraph.update] at h
    split at h
    · exact Except.noConfusion h
    · split at h
      · cases h
        exact ⟨rfl, rfl, rfl⟩
      · cases h
        exact ⟨rfl, rfl, rfl⟩
      · cases h
        exact ⟨rfl, rfl, rfl⟩
      · exact Except.noConfusion h

theorem backwardsFrom_preserves :
    ∀ (fuel : ℕ) (g : RunnableGraph) (id : NodeRef) (g' : RunnableGraph),
      backwardsFrom fuel g id = .ok g' →
      g'.nodes = g.nodes ∧ g'.inputs = g.inputs ∧ g'.root = g.root := by
  intro fuel
  induction fuel with
  | zero =>
    intro g id g' h
    exact Except.noConfusion h
  | succ fuel ih =>
    intro g id g' h
    simp only [backwardsFrom] at h
    split at h
    · exact Except.noConfusion h
    · split at h
      · cases h
        exact ⟨rfl, rfl, rfl⟩
      · split at h
        · exact Except.noConfusion h
        · split at h
          · exact Except.noConfusion h
          · cases h
            exact ⟨rfl, rfl, rfl⟩
          · split at h
            · exact Except.noConfusion h
            · split at h
              · exact Except.noConfusion h
              · rename_i g1 hu1
                split at h
                · exact Except.noConfusion h
                · rename_i g2 hb1
                  split at h
                  · exact Except.noConfusion h
                  · split at h
                    · exact Except.noConfusion h
                    · rename_i g3 hu2
                      have p1 := update_preserves hu1
                      have p2 := ih _ _ _ hb1
                      have p3 := update_preserves hu2
                      have p4 := ih _ _ _ h
                      refine ⟨?_, ?_, ?_⟩
                      · rw [p4.1, p3.1, p2.1, p1.1]
                      · rw [p4.2.1, p3.2.1, p2.2.1, p1.2.1]
                      · rw [p4.2.2, p3.2.2, p2.2.2, p1.2.2]

theorem value_for_id_no_todo (g : RunnableGraph) (r : NodeRef) (e : Op) :
    value_for_id g r ≠ .error (.unimplemented e) := by
  cases r with
  | inputNode i =>
    simp only [value_for_id]
    cases alookup i g.inputs <;> simp
  | opNode i =>
    simp only [value_for_id]
    cases alookup i g.data <;> simp

theorem grad_for_id_no_todo (g : RunnableGraph) (i : ℕ) (e : Op) :
    grad_for_id g i ≠ .error (.unimplemented e) := by
  simp only [grad_for_id]
  cases alookup i g.data <;> simp

theorem update_amr_no_todo {g : RunnableGraph} {id : NodeRef} {op : Op} {rv rg ov : ℚ}
    (hop : op = Op.add ∨ op = Op.mul ∨ op = Op.relu) (e : Op) :
    RunnableGraph.update g id op rv rg ov ≠ .error (.unimplemented e) := by
  cases id with
  | inputNode j => simp [RunnableGraph.update]
  | opNode i =>
    simp only [RunnableGraph.update]
    cases alookup i g.data with
    | none => simp
    | some d => rcases hop with rfl | rfl | rfl <;> simp

theorem backwardsFrom_no_todo :
    ∀ (fuel : ℕ) (g : RunnableGraph) (id : NodeRef),
      OnlyAMR g.nodes → ∀ e : Op,
      backwardsFrom fuel g id ≠ .error (.unimplemented e) := by
  intro fuel
  induction fuel with
  | zero =>
    intro g id _ e h
    simp [backwardsFrom] at h
  | succ fuel ih =>
    intro g id hamr e h
    simp only [backwardsFrom] at h
    split at h
    · rename_i e1 hv
      injection h with h1
      subst h1
      exact value_for_id_no_todo g id e hv
    · split at h
      · exact Except.noConfusion h
      · split at h
        · rename_i e1 hgr
          injection h with h1
          subst h1
          exact grad_for_id_no_todo _ _ e hgr
        · split at h
          · injection h with h1
            exact EvalErr.noConfusion h1
          · exact Except.noConfusion h
          · rename_i i hrg n hn
            have hop := hamr _ (alookup_mem hn) n rfl
            split at h
            · rename_i e1 hv
              injection h with h1
              subst h1
              exact value_for_id_no_todo _ _ e hv
            · split at h
              · rename_i e1 hu
                injection h with h1
                subst h1
                exact update_amr_no_todo hop e hu
              · rename_i g1 hu1
                split at h
                · rename_i e1 hb
                  injection h with h1
                  subst h1
                  have hamr1 : OnlyAMR g1.nodes := by
                    rw [(update_preserves hu1).1]
                    exact hamr
                  exact ih g1 _ hamr1 e hb
                · rename_i g2 hb1
                  split at h
                  · rename_i e1 hv
                    injection h with h1
                    subst h1
                    exact value_for_id_no_todo _ _ e hv
                  · split at h
                    · rename_i e1 hu
                      injection h with h1
                      subst h1
                      exact update_amr_no_todo hop e hu
                    · rename_i g3 hu2
                      have hamr3 : OnlyAMR g3.nodes := by
                        rw [(update_preserves hu2).1, (backwardsFrom_preserves _ _ _ _ hb1).1,
                          (update_preserves hu1).1]
                        exact hamr
                      exact ih g3 _ hamr3 e h

theorem backwards_no_todo (fuel : ℕ) (g : RunnableGraph) (og : ℚ)
    (hamr : OnlyAMR g.nodes) (e : Op) :
    backwards fuel g og ≠ .error (.unimplemented e) := by
  intro h
  simp only [backwards] at h
  split at h
  · rename_i e1 hv
    injection h with h1
    subst h1
    exact value_for_id_no_todo g g.root e hv
  · split at h
    · injection h with h1
      exact EvalErr.noConfusion h1
    · injection h with h1
      exact EvalErr.noConfusion h1
    · rename_i rv hrv n hn
      have hop := hamr _ (alookup_mem hn) n rfl
      split at h
      · rename_i e1 hu
        injection h with h1
        subst h1
        exact update_amr_no_todo hop e hu
      · rename_i g1 hu1
        have hamr1 : OnlyAMR g1.nodes := by
          rw [(update_preserves hu1).1]
          exact hamr
        exact backwardsFrom_no_todo fuel g1 g.root hamr1 e h

/-- Truth of a backward run completing without a panic. -/
def isOkE : Except EvalErr RunnableGraph → Bool
  | .ok _ => true
  | .error _ => false

/-- Counterexample to C5 as stated: the graph (a - b) + 1 has a Sub node
(id 3) on the path from the root, yet backwards completes without any
panic — both operands of the Sub node are input references, which `update`
skips before ever inspecting the operation. -/
theorem C5_sub_completes_silently_cex :
    alookup 3 gSubInteriorF.nodes =
      some (.operation ⟨.sub, .inputNode 1, .inputNode 2⟩) ∧
    isOkE (backwards 20 gSubInteriorF 1) = true := by
  constructor
  · norm_num [gSubInteriorF, okGraph, forward, gSubInterior, set_input, get_node_value,
      update_data_value, Op.apply, create_input, combine, with_immediate,
      GraphBuilder.new, GraphBuilder.make, Data.new, NodeRef.toId, alookup, pw0]
  · norm_num [isOkE, Except.map, backwards, backwardsFrom, RunnableGraph.update,
      value_for_id, grad_for_id, set_gradient, gSubInteriorF, okGraph, forward,
      gSubInterior, set_input, get_node_value, update_data_value, Op.apply,
      create_input, combine, with_immediate, GraphBuilder.new, GraphBuilder.make,
      Data.new, NodeRef.toId, NodeRef.asOpNodeId, alookup, pw0]

/-- Claim C5 (amended): backwards panics with the unimplemented-operation
condition when a Sub/Div/Pow node is the root (the seeding `update` uses
the root's own operation) or when the walk reaches a Sub/Div/Pow node at
least one of whose operands is an op-node reference; a Sub/Div/Pow node
both of whose operands are input references is walked through silently
(see the counterexample); and on graphs whose operation nodes are all
Add/Mul/Relu, backwards never reports the unimplemented-operation panic. -/
theorem C5_unimplemented_backward :
    backwards 20 gSubRootF 1 = .error (.unimplemented .sub) ∧
    backwards 20 gSubImmF 1 = .error (.unimplemented .sub) ∧
    (∀ (fuel : ℕ) (g : RunnableGraph) (og : ℚ),
       OnlyAMRb g.nodes = true → ∀ e : Op,
       backwards fuel g og ≠ .error (.unimplemented e)) := by
  refine ⟨?_, ?_, ?_⟩
  · norm_num [backwards, backwardsFrom, RunnableGraph.update, value_for_id,
      grad_for_id, set_gradient, gSubRootF, okGraph, forward, gSubRoot, set_input,
      get_node_value, update_data_value, Op.apply, create_input, combine,
      GraphBuilder.new, GraphBuilder.make, Data.new, NodeRef.toId,
      NodeRef.asOpNodeId, alookup, pw0]
  · norm_num [backwards, backwardsFrom, RunnableGraph.update, value_for_id,
      grad_for_id, set_gradient, gSubImmF, okGraph, forward, gSubImm, set_input,
      get_node_value, update_data_value, Op.apply, create_input, with_immediate,
      GraphBuilder.new, GraphBuilder.make, Data.new, NodeRef.toId,
      NodeRef.asOpNodeId, alookup, pw0]
  · intro fuel g og hb e
    exact backwards_no_todo fuel g og (OnlyAMR_of_b hb) e

/-- Witness for C5's general conjunct: the relu graph contains only
Add/Mul/Relu operation nodes, so its backward pass never reports the
unimplemented-operation panic. -/
theorem C5_unimplemented_backward_witness :
    backwards 20 gReluPosF 1 ≠ .error (.unimplemented .sub) :=
  C5_unimplemented_backward.2.2 20 gReluPosF 1
    (by
      norm_num [OnlyAMRb, nodeAMR, gReluPosF, okGraph, forward, gReluPos, gRelu,
        set_input, get_node_value, update_data_value, Op.apply, create_input,
        with_immediate, GraphBuilder.new, GraphBuilder.relu, GraphBuilder.make,
        Data.new, NodeRef.toId, alookup, pw0])
    .sub

/-! ## Claim C3: gradient correctness against a reference sweep -/

/-- Left-operand contribution of the spec's local derivative rules
(section 4.3): Add gives g, Mul gives rv*g, Relu gives g gated on the left
value being positive; Sub/Div/Pow contribute nothing here because the
reference is only ever applied to Add/Mul/Relu graphs. -/
def refContribL (op : Op) (lv rv g : ℚ) : ℚ :=
  match op with
  | .add => g
  | .mul => rv * g
  | .relu => if lv > 0 then g else 0
  | _ => 0

/-- Right-operand contribution: Add gives g, Mul gives lv*g, and for Relu
the right operand (the constant zero immediate) is not updated. -/
def refContribR (op : Op) (lv _rv g : ℚ) : ℚ :=
  match op with
  | .add => g
  | .mul => lv * g
  | _ => 0

/-- Add an amount into one slot of a total gradient assignment. -/
def bump (grads : ℕ → ℚ) (k : ℕ) (amt : ℚ) : ℕ → ℚ :=
  fun k1 => if k1 = k then grads k1 + amt else grads k1

/-- Modelled from the spec: one step of the reference reverse-mode sweep —
an operation node distributes its current gradient to both operands
(inputs included) by adding the local-rule contributions. -/
def refStep (nodes : List (ℕ × Node)) (values : NodeRef → ℚ) (grads : ℕ → ℚ)
    (id : ℕ) : ℕ → ℚ :=
  match alookup id nodes with
  | some (.operation n) =>
    let g := grads id
    let lv := values n.left_id
    let rv := values n.right_id
    bump (bump grads n.left_id.toId (refContribL n.operation lv rv g))
      n.right_id.toId (refContribR n.operation lv rv g)
  | _ => grads

/-- Modelled from the spec: the reference sweep over ids N, N-1, ..., 0 in
decreasing order. -/
def refSweep (nodes : List (ℕ × Node)) (values : NodeRef → ℚ) (grads : ℕ → ℚ) :
    ℕ → (ℕ → ℚ)
  | 0 => refStep nodes values grads 0
  | n + 1 => refSweep nodes values (refStep nodes values grads (n + 1)) n

/-- Modelled from the spec: reference reverse-mode differentiation — seed
the output node, then sweep all ids in decreasing order. -/
def refBackwards (nodes : List (ℕ × Node)) (values : NodeRef → ℚ)
    (seedId : ℕ) (seedG : ℚ) (N : ℕ) : ℕ → ℚ :=
  refSweep nodes values (bump (fun _ => 0) seedId seedG) N

/-- The per-node values of an evaluated graph, as a total function. -/
def valuesOf (g : RunnableGraph) : NodeRef → ℚ
  | .inputNode i => (alookup i g.inputs).getD 0
  | .opNode i => ((alookup i g.data).map Data.value).getD 0

/-- Evidence for C3: on the diamond graph (output (2a+1) + (2a+1) with the
node s = a*2 shared between the two parents), the engine's recursive
backward pass stores gradient 6 for the immediate a (id 1), while the
reference reverse-mode sweep — and the true derivative of 4a + 2 — gives
4: `_backwards` re-propagates a shared node's accumulated gradient once
per visiting path, double-counting everything below the shared node. -/
theorem C3_shared_node_gradient_divergence :
    (backwards 20 gDiamondF 1).map (fun gb => (alookup 1 gb.data).map Data.gradient) =
      .ok (some 6) ∧
    refBackwards gDiamondF.nodes (valuesOf gDiamondF) 8 1 8 1 = 4 ∧
    (6 : ℚ) ≠ 4 := by
  refine ⟨?_, ?_, by norm_num⟩
  · norm_num [Except.map, backwards, backwardsFrom, RunnableGraph.update, value_for_id,
      grad_for_id, set_gradient, gDiamondF, okGraph, forward, gDiamond,
      get_node_value, update_data_value, Op.apply, new_of_immediate, combine,
      with_immediate, GraphBuilder.make, Data.new, NodeRef.toId,
      NodeRef.asOpNodeId, alookup, pw0]
  · norm_num [refBackwards, refSweep, refStep, bump, refContribL, refContribR,
      valuesOf, gDiamondF, okGraph, forward, gDiamond, get_node_value,
      update_data_value, Op.apply, new_of_immediate, combine, with_immediate,
      GraphBuilder.make, Data.new, NodeRef.toId, alookup, pw0]

/-! ## The Adam optimiser (src/optimiser.rs) -/

/-- `struct AdamOptimiser`: first/second moment accumulators and the step
counter (an f64 in the source). -/
structure AdamOptimiser where
  m : List ℚ
  v : List ℚ
  t : ℚ
deriving DecidableEq, Repr

/-- `AdamOptimiser::ALPHA` (the exact decimal the source literal denotes). -/
def ALPHA : ℚ := 1 / 1000

/-- `AdamOptimiser::BETA_1`. -/
def BETA_1 : ℚ := 9 / 10

/-- `AdamOptimiser::BETA_2`. -/
def BETA_2 : ℚ := 999 / 1000

/-- `AdamOptimiser::EPSILON`. -/
def EPSILON : ℚ := 1 / 100000000

/-- `AdamOptimiser::new`. -/
def AdamOptimiser.new (num_params : ℕ) : AdamOptimiser :=
  ⟨List.replicate num_params 0, List.replicate num_params 0, 0⟩

/-- The zipped per-slot loop of `AdamOptimiser::optimise`: walks m, v and
the data entries in lock-step, stopping at the shortest list and leaving
every tail unchanged — the semantics of `Iterator::zip` over `iter_mut`.
The opaque float square root and power are the parameters `sqrtQ` and
`powQ`. -/
def optimiseZip (sqrtQ : ℚ → ℚ) (powQ : ℚ → ℚ → ℚ) (t : ℚ) :
    List ℚ → List ℚ → List Data → List ℚ × List ℚ × List Data
  | m :: ms, v :: vs, d :: ds =>
    let grad := d.gradient
    let m1 := BETA_1 * m + (1 - BETA_1) * grad
    let v1 := BETA_2 * v + (1 - BETA_2) * powQ grad 2
    let beta1 := powQ BETA_1 t
    let beta2 := powQ BETA_2 t
    let alpha := ALPHA * sqrtQ (1 - beta2) / (1 - beta1)
    let d1 : Data := { d with value := d.value - alpha * m1 / (sqrtQ v1 + EPSILON) }
    let rest := optimiseZip sqrtQ powQ t ms vs ds
    (m1 :: rest.1, v1 :: rest.2.1, d1 :: rest.2.2)
  | ms, vs, ds => (ms, vs, ds)

/-- `AdamOptimiser::optimise`: increment t, then run the zipped loop. -/
def AdamOptimiser.optimise (sqrtQ : ℚ → ℚ) (powQ : ℚ → ℚ → ℚ)
    (o : AdamOptimiser) (data : List Data) : AdamOptimiser × List Data :=
  let t := o.t + 1
  let r := optimiseZip sqrtQ powQ t o.m o.v data
  (⟨r.1, r.2.1, t⟩, r.2.2)

/-- The identity stand-in for the opaque square root in witnesses. -/
def sqId : ℚ → ℚ := fun x => x

/-- A power stand-in agreeing with the real one at exponents 1 and 2 on
the arguments used in witnesses. -/
def pwW : ℚ → ℚ → ℚ := fun a b => if b = 1 then a else a * a

/-- Per-index characterization of the zipped loop, for indices within all
three lists. -/
theorem optimiseZip_getD :
    ∀ (sq : ℚ → ℚ) (pw : ℚ → ℚ → ℚ) (t : ℚ) (ms vs : List ℚ) (ds : List Data) (i : ℕ),
      i < ms.length → i < vs.length → i < ds.length →
      (optimiseZip sq pw t ms vs ds).1.getD i 0 =
          BETA_1 * ms.getD i 0 + (1 - BETA_1) * (ds.getD i ⟨0, 0⟩).gradient ∧
      (optimiseZip sq pw t ms vs ds).2.1.getD i 0 =
          BETA_2 * vs.getD i 0 + (1 - BETA_2) * pw (ds.getD i ⟨0, 0⟩).gradient 2 ∧
      ((optimiseZip sq pw t ms vs ds).2.2.getD i ⟨0, 0⟩).value =
          (ds.getD i ⟨0, 0⟩).value -
            ALPHA * sq (1 - pw BETA_2 t) / (1 - pw BETA_1 t) *
              (BETA_1 * ms.getD i 0 + (1 - BETA_1) * (ds.getD i ⟨0, 0⟩).gradient) /
              (sq (BETA_2 * vs.getD i 0 +
                    (1 - BETA_2) * pw (ds.getD i ⟨0, 0⟩).gradient 2) + EPSILON) ∧
      ((optimiseZip sq pw t ms vs ds).2.2.getD i ⟨0, 0⟩).gradient =
          (ds.getD i ⟨0, 0⟩).gradient := by
  intro sq pw t ms
  induction ms with
  | nil =>
    intro vs ds i h1 h2 h3
    simp at h1
  | cons m ms ih =>
    intro vs ds i h1 h2 h3
    cases vs with
    | nil => simp at h2
    | cons v vs =>
      cases ds with
      | nil => simp at h3
      | cons d ds =>
        cases i with
        | zero =>
          refine ⟨?_, ?_, ?_, ?_⟩ <;> simp [optimiseZip]
        | succ i =>
          simp only [optimiseZip, List.getD_cons_succ]
          exact ih vs ds i (by simpa using h1) (by simpa using h2) (by simpa using h3)

/-- Claim C8: each optimise call increments t by one; for each slot inside
all three arrays it performs m = β1·m + (1-β1)·g, v = β2·v + (1-β2)·g²,
value -= α·√(1-β2^t)/(1-β1^t) · m/(√v + ε) with the stored gradient left
untouched; and a single call with gradient 1 and all accumulators zero
reduces to value -= α·√(1-β2)/(1-β1) · (1-β1)/(√(1-β2)+ε), t going from 0
to 1. -/
theorem C8_adam_step :
    (∀ (sq : ℚ → ℚ) (pw : ℚ → ℚ → ℚ) (o : AdamOptimiser) (data : List Data),
       (AdamOptimiser.optimise sq pw o data).1.t = o.t + 1) ∧
    (∀ (sq : ℚ → ℚ) (pw : ℚ → ℚ → ℚ) (o : AdamOptimiser) (data : List Data) (i : ℕ),
       i < o.m.length → i < o.v.length → i < data.length →
       (AdamOptimiser.optimise sq pw o data).1.m.getD i 0 =
           BETA_1 * o.m.getD i 0 + (1 - BETA_1) * (data.getD i ⟨0, 0⟩).gradient ∧
       (AdamOptimiser.optimise sq pw o data).1.v.getD i 0 =
           BETA_2 * o.v.getD i 0 + (1 - BETA_2) * pw (data.getD i ⟨0, 0⟩).gradient 2 ∧
       ((AdamOptimiser.optimise sq pw o data).2.getD i ⟨0, 0⟩).value =
           (data.getD i ⟨0, 0⟩).value -
             ALPHA * sq (1 - pw BETA_2 (o.t + 1)) / (1 - pw BETA_1 (o.t + 1)) *
               (BETA_1 * o.m.getD i 0 + (1 - BETA_1) * (data.getD i ⟨0, 0⟩).gradient) /
               (sq (BETA_2 * o.v.getD i 0 +
                     (1 - BETA_2) * pw (data.getD i ⟨0, 0⟩).gradient 2) + EPSILON) ∧
       ((AdamOptimiser.optimise sq pw o data).2.getD i ⟨0, 0⟩).gradient =
           (data.getD i ⟨0, 0⟩).gradient) ∧
    (∀ (sq : ℚ → ℚ) (pw : ℚ → ℚ → ℚ) (x : ℚ),
       pw 1 2 = 1 → pw BETA_1 1 = BETA_1 → pw BETA_2 1 = BETA_2 →
       (AdamOptimiser.optimise sq pw (AdamOptimiser.new 1) [⟨x, 1⟩]).1.t = 1 ∧
       (AdamOptimiser.optimise sq pw (AdamOptimiser.new 1) [⟨x, 1⟩]).2 =
         [⟨x - ALPHA * sq (1 - BETA_2) / (1 - BETA_1) *
               ((1 - BETA_1) / (sq (1 - BETA_2) + EPSILON)), 1⟩]) := by
  refine ⟨?_, ?_, ?_⟩
  · intro sq pw o data
    rfl
  · intro sq pw o data i h1 h2 h3
    exact optimiseZip_getD sq pw (o.t + 1) o.m o.v data i h1 h2 h3
  · intro sq pw x hp2 hp11 hp21
    constructor
    · show (0 : ℚ) + 1 = 1
      norm_num
    · simp only [AdamOptimiser.optimise, AdamOptimiser.new, List.replicate,
        optimiseZip, hp2, hp11, hp21]
      have e1 : BETA_2 * 0 + (1 - BETA_2) * 1 = 1 - BETA_2 := by ring
      have e2 : (0 : ℚ) + 1 = 1 := by norm_num
      rw [e2, hp11, hp21, e1]
      congr 1
      congr 1
      ring

/-- Witness for C8: the concrete single-step conjunct instantiated with
the identity square root and a power stand-in agreeing with the real one
at the exponents 1 and 2. -/
theorem C8_adam_step_witness :
    (AdamOptimiser.optimise sqId pwW (AdamOptimiser.new 1) [⟨0, 1⟩]).1.t = 1 ∧
    (AdamOptimiser.optimise sqId pwW (AdamOptimiser.new 1) [⟨0, 1⟩]).2 =
      [⟨0 - ALPHA * sqId (1 - BETA_2) / (1 - BETA_1) *
            ((1 - BETA_1) / (sqId (1 - BETA_2) + EPSILON)), 1⟩] :=
  C8_adam_step.2.2 sqId pwW 0
    (by norm_num [pwW]) (by norm_num [pwW, BETA_1]) (by norm_num [pwW, BETA_2])

/-- Counterexample to C9 as stated: an optimiser built for one parameter
applied to two data slots does not fail — the zip silently stops after the
first slot: slot 0's value changes while slot 1 is returned untouched. -/
theorem C9_no_fatal_mismatch_cex :
    (AdamOptimiser.optimise sqId pwW (AdamOptimiser.new 1) [⟨1, 1⟩, ⟨5, 1⟩]).2.get? 1 =
      some ⟨5, 1⟩ ∧
    (AdamOptimiser.optimise sqId pwW (AdamOptimiser.new 1) [⟨1, 1⟩, ⟨5, 1⟩]).2.get? 0 ≠
      some ⟨1, 1⟩ := by
  constructor
  · rfl
  · simp only [AdamOptimiser.optimise, AdamOptimiser.new, List.replicate, optimiseZip,
      sqId, pwW, List.get?]
    intro h
    rw [Option.some_inj] at h
    have hv := congrArg Data.value h
    simp only at hv
    rw [ALPHA, BETA_1, BETA_2, EPSILON] at hv
    norm_num at hv

theorem optimiseZip_length (sq : ℚ → ℚ) (pw : ℚ → ℚ → ℚ) (t : ℚ) :
    ∀ (ms vs : List ℚ) (ds : List Data),
      (optimiseZip sq pw t ms vs ds).2.2.length = ds.length := by
  intro ms
  induction ms with
  | nil => intro vs ds; rfl
  | cons m ms ih =>
    intro vs ds
    cases vs with
    | nil => rfl
    | cons v vs =>
      cases ds with
      | nil => rfl
      | cons d ds => simpa [optimiseZip] using ih vs ds

/-- Claim C9 (amended): a mismatch between the accumulator arrays and the
Data array is not detected: optimise proceeds, updating the slots up to
the shortest length in lock-step and returning every later Data entry
unchanged (and it always returns as many entries as it was given). -/
theorem C9_zip_stops_at_shortest :
    (∀ (sq : ℚ → ℚ) (pw : ℚ → ℚ → ℚ) (t : ℚ) (ms vs : List ℚ) (ds : List Data) (i : ℕ),
       ms.length ≤ i ∨ vs.length ≤ i →
       (optimiseZip sq pw t ms vs ds).2.2.get? i = ds.get? i) ∧
    (∀ (sq : ℚ → ℚ) (pw : ℚ → ℚ → ℚ) (o : AdamOptimiser) (data : List Data),
       (AdamOptimiser.optimise sq pw o data).2.length = data.length) := by
  constructor
  · intro sq pw t ms
    induction ms with
    | nil =>
      intro vs ds i hi
      rfl
    | cons m ms ih =>
      intro vs ds i hi
      cases vs with
      | nil => rfl
      | cons v vs =>
        cases ds with
        | nil => rfl
        | cons d ds =>
          cases i with
          | zero =>
            rcases hi with hi | hi <;> simp at hi
          | succ i =>
            have := ih vs ds i (by rcases hi with hi | hi
                                   · exact Or.inl (by simpa using hi)
                                   · exact Or.inr (by simpa using hi))
            simpa [optimiseZip] using this
  · intro sq pw o data
    exact optimiseZip_length sq pw (o.t + 1) o.m o.v data

/-- Witness for C9's amended statement: with empty accumulator lists, a
one-entry data array is returned entirely unchanged. -/
theorem C9_zip_stops_at_shortest_witness :
    (optimiseZip sqId pwW 1 [] [] [⟨5, 1⟩]).2.2.get? 0 = some ⟨5, 1⟩ :=
  C9_zip_stops_at_shortest.1 sqId pwW 1 [] [] [⟨5, 1⟩] 0 (Or.inl (by norm_num))

/-! ## Claim C6: the recursive forward pass refines a single increasing
linear sweep

The id-ordering invariant of C1 is packaged as a boolean well-formedness
check `GInvb`; under it, both the recursive evaluator and the spec's
single increasing-id pass compute the same per-node values, captured by a
fueled pure denotation `denote`. -/

/-- A reference resolves: an op-node id is present in the node map, an
input id in the input map. -/
def validRefb (nodes : List (ℕ × Node)) (inputs : List (ℕ × ℚ)) : NodeRef → Bool
  | .opNode j => (alookup j nodes).isSome
  | .inputNode j => (alookup j inputs).isSome

/-- Well-formedness of one node-map entry: an immediate stores its own key
as its id; an operation node's operand ids are strictly below its key and
both operands resolve. -/
def nodeWFb (nodes : List (ℕ × Node)) (inputs : List (ℕ × ℚ)) (p : ℕ × Node) : Bool :=
  match p.2 with
  | .immediate j _ => j == p.1
  | .operation n =>
    decide (n.left_id.toId < p.1) && decide (n.right_id.toId < p.1) &&
      validRefb nodes inputs n.left_id && validRefb nodes inputs n.right_id

/-- Well-formedness of a graph: every node-map entry is well formed. -/
def GInvb (nodes : List (ℕ × Node)) (inputs : List (ℕ × ℚ)) : Bool :=
  nodes.all (nodeWFb nodes inputs)

theorem GInv_imm {nodes : List (ℕ × Node)} {inputs : List (ℕ × ℚ)} {k j : ℕ} {ov : ℚ}
    (h : GInvb nodes inputs = true) (hk : alookup k nodes = some (.immediate j ov)) :
    j = k := by
  have hall := List.all_eq_true.1 h _ (alookup_mem hk)
  simpa [nodeWFb] using hall

theorem GInv_op {nodes : List (ℕ × Node)} {inputs : List (ℕ × ℚ)} {k : ℕ}
    {n : GraphBuilderNode}
    (h : GInvb nodes inputs = true) (hk : alookup k nodes = some (.operation n)) :
    n.left_id.toId < k ∧ n.right_id.toId < k ∧
      validRefb nodes inputs n.left_id = true ∧
      validRefb nodes inputs n.right_id = true := by
  have hall := List.all_eq_true.1 h _ (alookup_mem hk)
  simp only [nodeWFb, Bool.and_eq_true, decide_eq_true_eq] at hall
  tauto

/-- The pure, fueled denotation of a reference: an input id reads the input
map, an op-node id resolves the node map; an immediate denotes its stored
data value (from the initial data map) or, failing that, its
construction-time value; an operation node applies its operation to the
denotations of its operands. -/
def denote (powQ : ℚ → ℚ → ℚ) (nodes : List (ℕ × Node)) (inputs : List (ℕ × ℚ))
    (data0 : List (ℕ × Data)) : ℕ → NodeRef → Option ℚ
  | 0, _ => none
  | _ + 1, .inputNode j => alookup j inputs
  | f + 1, .opNode i =>
    match alookup i nodes with
    | none => none
    | some (.immediate j ov) => some (((alookup j data0).map Data.value).getD ov)
    | some (.operation n) =>
      match denote powQ nodes inputs data0 f n.left_id,
            denote powQ nodes inputs data0 f n.right_id with
      | some lv, some rv => some (Op.apply powQ n.operation lv rv)
      | _, _ => none

/-- The fuel sufficient for a reference under the id-ordering invariant. -/
def NodeRef.rank : NodeRef → ℕ
  | .opNode i => i + 1
  | .inputNode _ => 1

theorem denote_mono {powQ : ℚ → ℚ → ℚ} {nodes : List (ℕ × Node)}
    {inputs : List (ℕ × ℚ)} {data0 : List (ℕ × Data)} :
    ∀ {f : ℕ} {ref : NodeRef} {v : ℚ},
      denote powQ nodes inputs data0 f ref = some v →
      denote powQ nodes inputs data0 (f + 1) ref = some v := by
  intro f
  induction f with
  | zero =>
    intro ref v h
    exact Option.noConfusion h
  | succ f ih =>
    intro ref v h
    cases ref with
    | inputNode j => exact h
    | opNode i =>
      simp only [denote] at h ⊢
      split at h
      · exact Option.noConfusion h
      · rename_i j ov heq
        try simp only [heq]
        exact h
      · rename_i n1 heq
        try simp only [heq]
        split at h
        · rename_i lv rv hl hr
          rw [ih hl, ih hr]
          exact h
        · exact Option.noConfusion h

theorem denote_le {powQ : ℚ → ℚ → ℚ} {nodes : List (ℕ × Node)}
    {inputs : List (ℕ × ℚ)} {data0 : List (ℕ × Data)} {f f1 : ℕ} {ref : NodeRef} {v : ℚ}
    (hf : f ≤ f1) (h : denote powQ nodes inputs data0 f ref = some v) :
    denote powQ nodes inputs data0 f1 ref = some v := by
  induction hf with
  | refl => exact h
  | step _ ih => exact denote_mono ih

theorem denote_det {powQ : ℚ → ℚ → ℚ} {nodes : List (ℕ × Node)}
    {inputs : List (ℕ × ℚ)} {data0 : List (ℕ × Data)} {f1 f2 : ℕ} {ref : NodeRef}
    {v1 v2 : ℚ} (h1 : denote powQ nodes inputs data0 f1 ref = some v1)
    (h2 : denote powQ nodes inputs data0 f2 ref = some v2) : v1 = v2 := by
  rcases le_total f1 f2 with hf | hf
  · have := denote_le hf h1
    rw [this] at h2
    exact Option.some.inj h2
  · have := denote_le hf h2
    rw [this] at h1
    exact (Option.some.inj h1).symm

theorem rank_le {ref : NodeRef} {i : ℕ} (h : ref.toId < i) : ref.rank ≤ i := by
  cases ref <;> simp only [NodeRef.rank, NodeRef.toId] at h ⊢ <;> omega

theorem denote_some (powQ : ℚ → ℚ → ℚ) {nodes : List (ℕ × Node)}
    {inputs : List (ℕ × ℚ)} (data0 : List (ℕ × Data))
    (hg : GInvb nodes inputs = true) :
    ∀ (b : ℕ) (ref : NodeRef), ref.toId < b → validRefb nodes inputs ref = true →
      ∃ v, denote powQ nodes inputs data0 ref.rank ref = some v := by
  intro b
  induction b with
  | zero =>
    intro ref h
    omega
  | succ b ih =>
    intro ref hlt hval
    cases ref with
    | inputNode j =>
      simp only [validRefb, Option.isSome_iff_exists] at hval
      obtain ⟨w, hw⟩ := hval
      exact ⟨w, hw⟩
    | opNode i =>
      simp only [validRefb, Option.isSome_iff_exists] at hval
      obtain ⟨nd, hnd⟩ := hval
      cases nd with
      | immediate j ov =>
        refine ⟨((alookup j data0).map Data.value).getD ov, ?_⟩
        simp only [NodeRef.rank, denote, hnd]
      | operation n =>
        obtain ⟨hlL, hlR, hvL, hvR⟩ := GInv_op hg hnd
        have hi : i < b + 1 := by simpa [NodeRef.toId] using hlt
        have hiL : n.left_id.toId < b := by omega
        have hiR : n.right_id.toId < b := by omega
        obtain ⟨lv, hLv⟩ := ih n.left_id hiL hvL
        obtain ⟨rv, hRv⟩ := ih n.right_id hiR hvR
        have hrankL : n.left_id.rank ≤ i := rank_le hlL
        have hrankR : n.right_id.rank ≤ i := rank_le hlR
        refine ⟨Op.apply powQ n.operation lv rv, ?_⟩
        simp only [NodeRef.rank, denote, hnd, denote_le hrankL hLv, denote_le hrankR hRv]

theorem update_data_value_nodes (g : RunnableGraph) (i : ℕ) (v : ℚ) :
    (update_data_value g i v).nodes = g.nodes := by
  simp only [update_data_value]
  split <;> rfl

theorem update_data_value_inputs (g : RunnableGraph) (i : ℕ) (v : ℚ) :
    (update_data_value g i v).inputs = g.inputs := by
  simp only [update_data_value]
  split <;> rfl

theorem update_data_value_val (g : RunnableGraph) (i : ℕ) (v : ℚ) (k : ℕ) :
    (alookup k (update_data_value g i v).data).map Data.value =
      if k = i then some v else (alookup k g.data).map Data.value := by
  simp only [update_data_value]
  split
  · by_cases hk : k = i
    · subst hk
      simp [alookup_cons, Data.new]
    · have hik : ¬ i = k := fun h => hk h.symm
      simp [alookup_cons, hik, hk]
  · by_cases hk : k = i
    · subst hk
      simp [alookup_cons]
    · have hik : ¬ i = k := fun h => hk h.symm
      simp [alookup_cons, hik, hk]

/-- The state-compatibility invariant threaded through the recursive
forward pass: the node and input maps are untouched and every data value
is either the initial one or the node's denotation. -/
def DVals (powQ : ℚ → ℚ → ℚ) (nodes : List (ℕ × Node)) (inputs : List (ℕ × ℚ))
    (data0 : List (ℕ × Data)) (st : RunnableGraph) : Prop :=
  st.nodes = nodes ∧ st.inputs = inputs ∧
  ∀ k, (alookup k st.data).map Data.value = (alookup k data0).map Data.value ∨
       (∃ q, denote powQ nodes inputs data0 (k + 1) (.opNode k) = some q ∧
             (alookup k st.data).map Data.value = some q)

theorem DVals_write {powQ : ℚ → ℚ → ℚ} {nodes : List (ℕ × Node)}
    {inputs : List (ℕ × ℚ)} {data0 : List (ℕ × Data)} {st : RunnableGraph}
    (h : DVals powQ nodes inputs data0 st) {i : ℕ} {v : ℚ}
    (hv : denote powQ nodes inputs data0 (i + 1) (.opNode i) = some v) :
    DVals powQ nodes inputs data0 (update_data_value st i v) := by
  refine ⟨by rw [update_data_value_nodes]; exact h.1,
          by rw [update_data_value_inputs]; exact h.2.1, ?_⟩
  intro k
  rw [update_data_value_val]
  by_cases hk : k = i
  · subst hk
    exact Or.inr ⟨v, hv, by rw [if_pos rfl]⟩
  · rw [if_neg hk]
    exact h.2.2 k

/-- The recursive evaluator computes exactly the denotation of the
reference it is asked for, and only ever writes denotations into the data
map. -/
theorem get_node_value_denote {powQ : ℚ → ℚ → ℚ} {nodes : List (ℕ × Node)}
    {inputs : List (ℕ × ℚ)} {data0 : List (ℕ × Data)}
    (hg : GInvb nodes inputs = true) :
    ∀ (f : ℕ) (st : RunnableGraph) (ref : NodeRef) (v : ℚ) (st1 : RunnableGraph),
      DVals powQ nodes inputs data0 st →
      get_node_value powQ f st ref = .ok (v, st1) →
      denote powQ nodes inputs data0 f ref = some v ∧
        DVals powQ nodes inputs data0 st1 := by
  intro f
  induction f with
  | zero =>
    intro st ref v st1 _ h
    exact Except.noConfusion h
  | succ f ih =>
    intro st ref v st1 hD h
    obtain ⟨hnds, hinps, hdat⟩ := hD
    cases ref with
    | inputNode j =>
      simp only [get_node_value] at h
      split at h
      · exact Except.noConfusion h
      · rename_i w heq
        rw [hinps] at heq
        cases h
        exact ⟨heq, hnds, hinps, hdat⟩
    | opNode i =>
      simp only [get_node_value] at h
      split at h
      · exact Except.noConfusion h
      · rename_i n heq
        rw [hnds] at heq
        split at h
        · exact Except.noConfusion h
        · rename_i lv g1 hL
          split at h
          · exact Except.noConfusion h
          · rename_i rv g2 hR
            obtain ⟨hdL, hD1⟩ := ih st n.left_id lv g1 ⟨hnds, hinps, hdat⟩ hL
            obtain ⟨hdR, hD2⟩ := ih g1 n.right_id rv g2 hD1 hR
            have hden : denote powQ nodes inputs data0 (f + 1) (.opNode i) =
                some (Op.apply powQ n.operation lv rv) := by
              simp only [denote, heq, hdL, hdR]
            have hvalid : validRefb nodes inputs (.opNode i) = true := by
              simp [validRefb, heq]
            obtain ⟨w, hw⟩ := denote_some powQ data0 hg (i + 1)
              (.opNode i) (by simp [NodeRef.toId]) hvalid
            have hvw : Op.apply powQ n.operation lv rv = w := denote_det hden hw
            cases h
            refine ⟨hden, ?_⟩
            rw [hvw]
            exact DVals_write hD2 hw
      · rename_i j ov heq
        rw [hnds] at heq
        have hji : j = i := GInv_imm hg heq
        subst hji
        have hden : denote powQ nodes inputs data0 (f + 1) (.opNode j) =
            some (((alookup j data0).map Data.value).getD ov) := by
          simp only [denote, heq]
        have hden2 : denote powQ nodes inputs data0 (j + 1) (.opNode j) =
            some (((alookup j data0).map Data.value).getD ov) := by
          simp only [denote, heq]
        have hval : ((alookup j st.data).map Data.value).getD ov =
            ((alookup j data0).map Data.value).getD ov := by
          rcases hdat j with hcase | ⟨q, hq1, hq2⟩
          · rw [hcase]
          · rw [hq2]
            have hqd := denote_det hq1 hden
            rw [hqd]
            rfl
        cases h
        constructor
        · rw [hval]
          exact hden
        · rw [hval]
          exact DVals_write (DVals_write ⟨hnds, hinps, hdat⟩ hden2) hden2

theorem update_data_value_lookup_ne (g : RunnableGraph) (i : ℕ) (v : ℚ) {k : ℕ}
    (hk : k ≠ i) : alookup k (update_data_value g i v).data = alookup k g.data := by
  have hik : ¬ i = k := fun h => hk h.symm
  simp only [update_data_value]
  split <;> simp [alookup_cons, hik]

/-- The operand values a sweep step reads: inputs from the input map, op
nodes from the data values computed earlier in the same pass. -/
def readVal (g : RunnableGraph) : NodeRef → ℚ
  | .inputNode j => (alookup j g.inputs).getD 0
  | .opNode j => ((alookup j g.data).map Data.value).getD 0

/-- One step of the spec's linear pass at one id: an operation node reads
its operands' already-computed values and writes its own value; an
immediate keeps its already-set value (its initial data value, else its
construction-time value); an id outside the node map is untouched. -/
def sweepStep (powQ : ℚ → ℚ → ℚ) (g : RunnableGraph) (id : ℕ) : RunnableGraph :=
  match alookup id g.nodes with
  | none => g
  | some (.immediate _ ov) =>
    update_data_value g id (((alookup id g.data).map Data.value).getD ov)
  | some (.operation n) =>
    update_data_value g id
      (Op.apply powQ n.operation (readVal g n.left_id) (readVal g n.right_id))

/-- The spec's forward pass: exactly one sweep over the ids 0, 1, ..., N
in increasing order, with no recursion. -/
def linearSweep (powQ : ℚ → ℚ → ℚ) (g : RunnableGraph) : ℕ → RunnableGraph
  | 0 => sweepStep powQ g 0
  | n + 1 => sweepStep powQ (linearSweep powQ g n) (n + 1)

theorem sweepStep_nodes (powQ : ℚ → ℚ → ℚ) (g : RunnableGraph) (id : ℕ) :
    (sweepStep powQ g id).nodes = g.nodes := by
  simp only [sweepStep]
  split
  · rfl
  · rw [update_data_value_nodes]
  · rw [update_data_value_nodes]

theorem sweepStep_inputs (powQ : ℚ → ℚ → ℚ) (g : RunnableGraph) (id : ℕ) :
    (sweepStep powQ g id).inputs = g.inputs := by
  simp only [sweepStep]
  split
  · rfl
  · rw [update_data_value_inputs]
  · rw [update_data_value_inputs]

theorem linearSweep_nodes (powQ : ℚ → ℚ → ℚ) (g : RunnableGraph) :
    ∀ N : ℕ, (linearSweep powQ g N).nodes = g.nodes := by
  intro N
  induction N with
  | zero => exact sweepStep_nodes powQ g 0
  | succ N ih => rw [linearSweep, sweepStep_nodes, ih]

theorem linearSweep_inputs (powQ : ℚ → ℚ → ℚ) (g : RunnableGraph) :
    ∀ N : ℕ, (linearSweep powQ g N).inputs = g.inputs := by
  intro N
  induction N with
  | zero => exact sweepStep_inputs powQ g 0
  | succ N ih => rw [linearSweep, sweepStep_inputs, ih]

/-- A sweep step only writes at its own id. -/
theorem sweepStep_lookup_ne (powQ : ℚ → ℚ → ℚ) (g : RunnableGraph) (id : ℕ) {k : ℕ}
    (hk : k ≠ id) : alookup k (sweepStep powQ g id).data = alookup k g.data := by
  simp only [sweepStep]
  split
  · rfl
  · rw [update_data_value_lookup_ne _ _ _ hk]
  · rw [update_data_value_lookup_ne _ _ _ hk]

/-- If a state's computed values agree with the denotations for every node
id up to N, the value a sweep step reads for an operand with id at most N
is that operand's denotation. -/
theorem readVal_denote {powQ : ℚ → ℚ → ℚ} {g0 sw : RunnableGraph}
    (hg : GInvb g0.nodes g0.inputs = true)
    (_hnodes : sw.nodes = g0.nodes) (hinputs : sw.inputs = g0.inputs) (N : ℕ)
    (hsw : ∀ j nd, j ≤ N → alookup j g0.nodes = some nd →
       (alookup j sw.data).map Data.value =
         denote powQ g0.nodes g0.inputs g0.data (j + 1) (.opNode j))
    (ref : NodeRef) (href : validRefb g0.nodes g0.inputs ref = true)
    (hlt : ref.toId ≤ N) :
    denote powQ g0.nodes g0.inputs g0.data (N + 1) ref = some (readVal sw ref) := by
  cases ref with
  | inputNode j =>
    simp only [validRefb, Option.isSome_iff_exists] at href
    obtain ⟨w, hw⟩ := href
    simp only [denote, readVal, hinputs, hw]
    rfl
  | opNode j =>
    simp only [validRefb, Option.isSome_iff_exists] at href
    obtain ⟨nd, hnd⟩ := href
    have hj : j ≤ N := hlt
    have hswj := hsw j nd hj hnd
    obtain ⟨q, hq⟩ := denote_some powQ g0.data hg (j + 1)
      (.opNode j) (by simp [NodeRef.toId]) (by simp [validRefb, hnd])
    have hq1 : denote powQ g0.nodes g0.inputs g0.data (j + 1) (.opNode j) = some q := hq
    rw [hq1] at hswj
    have : readVal sw (.opNode j) = q := by
      simp only [readVal, hswj]
      rfl
    rw [this]
    exact denote_le (by omega) hq1

/-- After sweeping ids 0..N in increasing order: every node id at most N
holds its denotation, and every other data entry is untouched. -/
theorem linearSweep_vals (powQ : ℚ → ℚ → ℚ) {g0 : RunnableGraph}
    (hg : GInvb g0.nodes g0.inputs = true) :
    ∀ N k : ℕ,
      (k ≤ N → ∀ nd, alookup k g0.nodes = some nd →
        (alookup k (linearSweep powQ g0 N).data).map Data.value =
          denote powQ g0.nodes g0.inputs g0.data (k + 1) (.opNode k)) ∧
      ((N < k ∨ alookup k g0.nodes = none) →
        alookup k (linearSweep powQ g0 N).data = alookup k g0.data) := by
  intro N
  induction N with
  | zero =>
    intro k
    constructor
    · intro hk nd hnd
      interval_cases k
      cases nd with
      | immediate j ov =>
        have hj : j = 0 := GInv_imm hg hnd
        subst hj
        simp only [linearSweep, sweepStep, hnd, update_data_value_val, if_pos rfl,
          denote, hnd, if_true]
      | operation n =>
        obtain ⟨hL, _, _, _⟩ := GInv_op hg hnd
        omega
    · intro hk
      rcases hk with hk | hk
      · simp only [linearSweep]
        exact sweepStep_lookup_ne powQ g0 0 (by omega)
      · by_cases h0 : k = 0
        · subst h0
          simp only [linearSweep, sweepStep, hk]
        · simp only [linearSweep]
          exact sweepStep_lookup_ne powQ g0 0 h0
  | succ N ih =>
    intro k
    have hswn : (linearSweep powQ g0 N).nodes = g0.nodes := linearSweep_nodes powQ g0 N
    have hswi : (linearSweep powQ g0 N).inputs = g0.inputs := linearSweep_inputs powQ g0 N
    constructor
    · intro hk nd hnd
      by_cases hkN : k = N + 1
      · subst hkN
        cases nd with
        | immediate j ov =>
          have hj : j = N + 1 := GInv_imm hg hnd
          subst hj
          have hprev : alookup (N + 1) (linearSweep powQ g0 N).data =
              alookup (N + 1) g0.data := (ih (N + 1)).2 (Or.inl (by omega))
          simp only [linearSweep, sweepStep, hswn, hnd, update_data_value_val,
            if_pos rfl, hprev, denote, hnd, if_true]
        | operation n =>
          obtain ⟨hL, hR, hvL, hvR⟩ := GInv_op hg hnd
          have hdenL := readVal_denote hg hswn hswi N
            (fun j ndj hj hndj => (ih j).1 hj ndj hndj) n.left_id hvL (by omega)
          have hdenR := readVal_denote hg hswn hswi N
            (fun j ndj hj hndj => (ih j).1 hj ndj hndj) n.right_id hvR (by omega)
          have hden : denote powQ g0.nodes g0.inputs g0.data (N + 2) (.opNode (N + 1)) =
              some (Op.apply powQ n.operation (readVal (linearSweep powQ g0 N) n.left_id)
                (readVal (linearSweep powQ g0 N) n.right_id)) := by
            simp only [denote, hnd, hdenL, hdenR]
          simp only [linearSweep, sweepStep, hswn, hnd, update_data_value_val, if_pos rfl]
          exact hden.symm
      · have hkN2 : k ≤ N := by omega
        have hstep : alookup k (linearSweep powQ g0 (N + 1)).data =
            alookup k (linearSweep powQ g0 N).data := by
          simp only [linearSweep]
          exact sweepStep_lookup_ne powQ _ (N + 1) hkN
        rw [hstep]
        exact (ih k).1 hkN2 nd hnd
    · intro hk
      by_cases hkN : k = N + 1
      · subst hkN
        rcases hk with hk | hk
        · omega
        · have hprev : alookup (N + 1) (linearSweep powQ g0 N).data =
              alookup (N + 1) g0.data := (ih (N + 1)).2 (Or.inl (by omega))
          simp only [linearSweep, sweepStep, hswn, hk, hprev]
      · have hstep : alookup k (linearSweep powQ g0 (N + 1)).data =
            alookup k (linearSweep powQ g0 N).data := by
          simp only [linearSweep]
          exact sweepStep_lookup_ne powQ _ (N + 1) hkN
        rw [hstep]
        rcases hk with hk | hk
        · exact (ih k).2 (Or.inl (by omega))
        · exact (ih k).2 (Or.inr hk)

/-- Claim C6: forward evaluation is equivalent to exactly one linear sweep
over all node ids in increasing order: under the id-ordering invariant,
every value the recursive implementation assigns to a node equals the
value assigned by the single increasing-id pass (in which each operation
node reads operand values already computed earlier in the pass), the
returned root value equals the pass's value at the root id, and data
entries the implementation does not assign are left untouched. -/
theorem C6_forward_equals_linear_sweep :
    ∀ (powQ : ℚ → ℚ → ℚ) (g : RunnableGraph) (N f : ℕ) (v : ℚ) (st1 : RunnableGraph),
      GInvb g.nodes g.inputs = true →
      (∀ p ∈ g.nodes, p.1 ≤ N) →
      forward powQ f g = .ok (v, st1) →
      (∀ k, (alookup k st1.data).map Data.value = (alookup k g.data).map Data.value ∨
          ((alookup k g.nodes).isSome = true ∧
           (alookup k st1.data).map Data.value =
             (alookup k (linearSweep powQ g N).data).map Data.value)) ∧
      (∀ i, g.root = .opNode i →
         (alookup i (linearSweep powQ g N).data).map Data.value = some v) := by
  intro powQ g N f v st1 hg hbound hfwd
  have hD0 : DVals powQ g.nodes g.inputs g.data g := ⟨rfl, rfl, fun k => Or.inl rfl⟩
  obtain ⟨hden, hD1⟩ := get_node_value_denote hg f g g.root v st1 hD0 hfwd
  constructor
  · intro k
    rcases hD1.2.2 k with hc | ⟨q, hq1, hq2⟩
    · exact Or.inl hc
    · have hnode : (alookup k g.nodes).isSome = true := by
        cases hn : alookup k g.nodes with
        | none =>
          rw [show denote powQ g.nodes g.inputs g.data (k + 1) (.opNode k) = none by
            simp only [denote, hn]] at hq1
          exact Option.noConfusion hq1
        | some nd => rfl
      refine Or.inr ⟨hnode, ?_⟩
      obtain ⟨nd, hnd⟩ := Option.isSome_iff_exists.1 hnode
      have hkN : k ≤ N := hbound _ (alookup_mem hnd)
      have hsw := (linearSweep_vals powQ hg N k).1 hkN nd hnd
      rw [hq2, hsw, hq1]
  · intro i hroot
    rw [hroot] at hden
    have hnode : ∃ nd, alookup i g.nodes = some nd := by
      cases f with
      | zero => exact absurd hden (by simp [denote])
      | succ f1 =>
        cases hn : alookup i g.nodes with
        | none =>
          rw [show denote powQ g.nodes g.inputs g.data (f1 + 1) (.opNode i) = none by
            simp only [denote, hn]] at hden
          exact Option.noConfusion hden
        | some nd => exact ⟨nd, rfl⟩
    obtain ⟨nd, hnd⟩ := hnode
    have hkN : i ≤ N := hbound _ (alookup_mem hnd)
    have hsw := (linearSweep_vals powQ hg N i).1 hkN nd hnd
    obtain ⟨w, hw⟩ := denote_some powQ g.data hg (i + 1) (.opNode i)
      (by simp [NodeRef.toId]) (by simp [validRefb, hnd])
    have hvw : v = w := denote_det hden hw
    rw [hsw, show denote powQ g.nodes g.inputs g.data (i + 1) (.opNode i) = some w from hw,
      hvw]

/-- Witness for C6 at the graph (a + b) * 2 with a = 1, b = 2: the sweep
over ids 0..5 assigns the root (id 5) the returned value 6. -/
theorem C6_forward_equals_linear_sweep_witness :
    (alookup 5 (linearSweep pw0 gAB12 5).data).map Data.value = some 6 :=
  (C6_forward_equals_linear_sweep pw0 gAB12 5 10 6
      (okGraph (forward pw0 10 gAB12) gAB12)
      (by decide) (by decide)
      (by norm_num [okGraph, forward, gAB12, gAB, set_input, get_node_value,
        update_data_value, Op.apply, create_input, combine, with_immediate,
        GraphBuilder.new, GraphBuilder.make, Data.new, NodeRef.toId, alookup,
        pw0])).2 5 (by decide)

end Micrograd
